import Mathlib

/-!
# gaussdb dialect adapter: shallow embedding of `gaussdb.go`

Go strings are byte sequences; a byte is represented by its numeric value.
The writer (`clause.Writer`) is represented by the bytes written so far.
Go's fixed-width integers are represented by `Int` with explicit wrap-around.
-/

namespace Gaussdb

/-! ## Bytes, strings and machine integers -/

/-- One byte of a Go string, by numeric value. -/
abbrev Byte := Nat

/-- The byte `'"'`. -/
def dquote : Byte := 34

/-- The byte `'.'`. -/
def dot : Byte := 46

/-- The byte `'$'`. -/
def dollar : Byte := 36

/-- The bytes of an ASCII string literal. -/
def ascii (s : String) : List Byte := s.toList.map Char.toNat

/-- Two's complement wrap-around of Go's `int8`. -/
def wrapInt8 (x : Int) : Int := (x + 128) % 256 - 128

/-- Two's complement wrap-around of Go's `int` (64 bits). -/
def wrapInt64 (x : Int) : Int := (x + 9223372036854775808) % 18446744073709551616 - 9223372036854775808

/-- Largest value of Go's `int` (64 bits). -/
def maxInt64 : Int := 9223372036854775807

/-- Smallest value of Go's `int` (64 bits). -/
def minInt64 : Int := -9223372036854775808

/-- The statement `size++` on a Go `int`. -/
def intIncr (x : Int) : Int := wrapInt64 (x + 1)

/-! ## `QuoteTo` (gaussdb.go, lines 141-192) -/

/-- Local variables of `QuoteTo` together with the writer's content. -/
structure QuoteState where
  underQuoted : Bool
  selfQuoted : Bool
  continuousBacktick : Int
  shiftDelimiter : Int
  out : List Byte
deriving DecidableEq, Repr

/-- The loop `for ; continuousBacktick > 0; continuousBacktick -= 1 { WriteString("\"\"") }`;
the first argument bounds the number of iterations. -/
def flushQuotes : Nat → QuoteState → QuoteState
  | 0, st => st
  | n + 1, st =>
    if st.continuousBacktick > 0 then
      flushQuotes n { st with
        out := st.out ++ [dquote, dquote]
        continuousBacktick := wrapInt8 (st.continuousBacktick - 1) }
    else st

/-- One iteration of the `for _, v := range []byte(str)` loop of `QuoteTo`. -/
def quoteStep (st : QuoteState) (v : Byte) : QuoteState :=
  if v = dquote then
    let cb := wrapInt8 (st.continuousBacktick + 1)
    let st1 : QuoteState :=
      if cb = 2 then
        { st with continuousBacktick := 0, out := st.out ++ [dquote, dquote] }
      else
        { st with continuousBacktick := cb }
    { st1 with shiftDelimiter := wrapInt8 (st1.shiftDelimiter + 1) }
  else if v = dot then
    let st1 : QuoteState :=
      if st.continuousBacktick > 0 ∨ st.selfQuoted = false then
        { st with
          shiftDelimiter := 0
          underQuoted := false
          continuousBacktick := 0
          out := st.out ++ [dquote] }
      else st
    { st1 with out := st1.out ++ [v] }
  else
    let st1 : QuoteState :=
      if wrapInt8 (st.shiftDelimiter - st.continuousBacktick) ≤ 0 ∧ st.underQuoted = false then
        if st.continuousBacktick > 0 then
          { st with
            out := st.out ++ [dquote]
            underQuoted := true
            selfQuoted := true
            continuousBacktick := wrapInt8 (st.continuousBacktick - 1) }
        else
          { st with
            out := st.out ++ [dquote]
            underQuoted := true
            selfQuoted := false }
      else st
    let st2 := flushQuotes st1.continuousBacktick.toNat st1
    { st2 with
      out := st2.out ++ [v]
      shiftDelimiter := wrapInt8 (st2.shiftDelimiter + 1) }

/-- State of `QuoteTo` on entry to the loop, for a writer holding `writer`. -/
def quoteInit (writer : List Byte) : QuoteState :=
  { underQuoted := false, selfQuoted := false, continuousBacktick := 0,
    shiftDelimiter := 0, out := writer }

/-- The code of `QuoteTo` after the loop. -/
def quoteFinish (st : QuoteState) : List Byte :=
  let out1 :=
    if st.continuousBacktick > 0 ∧ st.selfQuoted = false then st.out ++ [dquote, dquote]
    else st.out
  out1 ++ [dquote]

/-- Embedding of `Dialector.QuoteTo`: the writer's content after the call, given the
`WithoutQuotingCheck` flag, the writer's content before the call and the input. -/
def QuoteTo (withoutQuotingCheck : Bool) (writer : List Byte) (str : List Byte) : List Byte :=
  if withoutQuotingCheck then writer ++ str
  else quoteFinish (str.foldl quoteStep (quoteInit writer))

/-! ## Formatting helpers of the Go standard library -/

/-- Decimal rendering of a Go integer, as `strconv.Itoa` and the verb `%d` produce it. -/
def itoa (n : Int) : String :=
  if n < 0 then "-" ++ Nat.repr n.natAbs else Nat.repr n.natAbs

/-- Whether the first list starts with the second (`strings.HasPrefix`). -/
def startsWith : List Char → List Char → Bool
  | _, [] => true
  | [], _ :: _ => false
  | c :: cs, d :: ds => c == d && startsWith cs ds

/-- Whether the second list occurs in the first as a contiguous block. -/
def containsChars : List Char → List Char → Bool
  | [], sub => startsWith [] sub
  | c :: cs, sub => startsWith (c :: cs) sub || containsChars cs sub

/-- Embedding of `strings.Contains`. -/
def strContains (s substr : String) : Bool := containsChars s.toList substr.toList

/-! ## `DataTypeOf` (gaussdb.go, lines 200-272) -/

/-- The type `schema.DataType` of the imported package `gorm.io/gorm/schema`, a named
string type. -/
abbrev DataType := String

/-- The constant `schema.Bool` of the imported package `gorm.io/gorm/schema`. -/
def schema.Bool : DataType := "bool"
/-- The constant `schema.Int` of the imported package `gorm.io/gorm/schema`. -/
def schema.Int : DataType := "int"
/-- The constant `schema.Uint` of the imported package `gorm.io/gorm/schema`. -/
def schema.Uint : DataType := "uint"
/-- The constant `schema.Float` of the imported package `gorm.io/gorm/schema`. -/
def schema.Float : DataType := "float"
/-- The constant `schema.String` of the imported package `gorm.io/gorm/schema`. -/
def schema.String : DataType := "string"
/-- The constant `schema.Time` of the imported package `gorm.io/gorm/schema`. -/
def schema.Time : DataType := "time"
/-- The constant `schema.Bytes` of the imported package `gorm.io/gorm/schema`. -/
def schema.Bytes : DataType := "bytes"

/-- The members of `schema.Field` that the dialect reads. -/
structure Field where
  DataType : Gaussdb.DataType
  GORMDataType : Gaussdb.DataType
  Size : Int
  Precision : Int
  Scale : Int
  AutoIncrement : Bool
deriving DecidableEq, Repr

/-- The `switch` on `size` choosing among the three serial types. -/
def serialOfSize (size : Int) : String :=
  if size ≤ 16 then "smallserial"
  else if size ≤ 32 then "serial"
  else "bigserial"

/-- The `switch` on `size` choosing among the three plain integer types. -/
def integerOfSize (size : Int) : String :=
  if size ≤ 16 then "smallint"
  else if size ≤ 32 then "integer"
  else "bigint"

/-- Embedding of `Dialector.getSchemaCustomType`; `toLower` stands for `strings.ToLower`. -/
def getSchemaCustomType (toLower : String → String) (field : Field) : String :=
  let sqlType : String := field.DataType
  if field.AutoIncrement = true ∧ strContains (toLower sqlType) "serial" = false then
    let size := if field.GORMDataType = schema.Uint then intIncr field.Size else field.Size
    serialOfSize size
  else sqlType

/-- Embedding of `Dialector.DataTypeOf`; `toLower` stands for `strings.ToLower`. -/
def DataTypeOf (toLower : String → String) (field : Field) : String :=
  if field.DataType = schema.Bool then "boolean"
  else if field.DataType = schema.Int ∨ field.DataType = schema.Uint then
    let size := if field.DataType = schema.Uint then intIncr field.Size else field.Size
    if field.AutoIncrement = true then serialOfSize size else integerOfSize size
  else if field.DataType = schema.Float then
    if field.Precision > 0 then
      if field.Scale > 0 then
        "numeric(" ++ itoa field.Precision ++ ", " ++ itoa field.Scale ++ ")"
      else "numeric(" ++ itoa field.Precision ++ ")"
    else "decimal"
  else if field.DataType = schema.String then
    if field.Size > 0 ∧ field.Size ≤ 10485760 then "varchar(" ++ itoa field.Size ++ ")"
    else "text"
  else if field.DataType = schema.Time then
    if field.Precision > 0 then "timestamptz(" ++ itoa field.Precision ++ ")"
    else "timestamptz"
  else if field.DataType = schema.Bytes then "bytea"
  else getSchemaCustomType toLower field

/-! ## `BindVarTo` (gaussdb.go, lines 128-139) -/

/-- A bound variable of a statement (`interface{}`): either a value of type
`gaussdbgo.QueryExecMode` or a value of any other type. -/
inductive Value where
  | queryExecMode (mode : Int)
  | other (payload : String)
deriving DecidableEq, Repr

/-- The type switch `case gaussdbgo.QueryExecMode`. -/
def Value.isQueryExecMode : Value → Bool
  | .queryExecMode _ => true
  | .other _ => false

/-- Embedding of `Dialector.BindVarTo`: the writer's content after the call, given its content
before, the statement's `Vars` and the value `v` being bound. -/
def BindVarTo (writer : List Byte) (vars : List Value) (_v : Value) : List Byte :=
  let w1 := writer ++ [dollar]
  let varLen : Int := vars.length
  let index : Int :=
    if varLen > 0 then
      match vars.head? with
      | some x => if x.isQueryExecMode then 1 else 0
      | none => 0
    else 0
  w1 ++ ascii (itoa (varLen - index))


/-! ## The `ON CONFLICT` clause builder (gaussdb.go, lines 284-345 and 359-372) -/

/-- Embedding of `clause.Column` of the imported package `gorm.io/gorm/clause`. -/
structure Column where
  Table : String
  Name : String
  Alias : String
  Raw : Bool
deriving DecidableEq, Repr

/-- The value of a `clause.Assignment` (`interface{}`): a `clause.Column` or a value
of any other type. -/
inductive AssignmentValue where
  | column (c : Column)
  | other (payload : String)
deriving DecidableEq, Repr

/-- Embedding of `clause.Assignment`. -/
structure Assignment where
  Column : Gaussdb.Column
  Value : AssignmentValue
deriving DecidableEq, Repr

/-- The members of `clause.OnConflict` other than its conditions. -/
structure OnConflict where
  Columns : List Column
  OnConstraint : String
  DoNothing : Bool
  DoUpdates : List Assignment
  UpdateAll : Bool
deriving DecidableEq, Repr

/-- The expression of a clause: a `clause.OnConflict` or an expression of another type. -/
inductive Expression where
  | onConflict (oc : OnConflict)
  | other (tag : String)
deriving DecidableEq, Repr

/-- The members of `schema.Field` that the clause builder reads. -/
structure SchemaField where
  DBName : String
  PrimaryKey : Bool
  Unique : Bool
deriving DecidableEq, Repr

/-- The members of `schema.Schema` that the clause builder reads, and `Fields`, the
list of all fields of the schema. -/
structure Schema where
  Fields : List SchemaField
  DBNames : List String
  PrioritizedPrimaryField : Option SchemaField
  PrimaryFields : List SchemaField
deriving DecidableEq, Repr

/-- A call of a method of `clause.Builder` made by the clause builder, or the call
`c.Build(builder)` that hands the clause to its default rendering. -/
inductive BuilderCall where
  | writeString (s : String)
  | writeByte (b : Byte)
  | writeQuoted (c : Column)
  | addVar (v : AssignmentValue)
  | clauseBuild
deriving DecidableEq, Repr

/-- The byte `','`. -/
def comma : Byte := 44

/-- The byte `'='`. -/
def equalsSign : Byte := 61

/-- The byte `')'`. -/
def closeParen : Byte := 41

/-- Embedding of `isPrimaryOrUniqueKey`, given the `Schema` of the statement that is the builder
(`nil` is `none`). -/
def isPrimaryOrUniqueKey (s : Option Schema) (name : String) : Bool :=
  match s with
  | none => false
  | some sc =>
    if name = "" then false
    else sc.PrimaryFields.any (fun field => field.DBName == name && (field.PrimaryKey || field.Unique))

/-- Lines 328-335: the calls that render the value of an assignment. -/
def valueCalls (v : AssignmentValue) : List BuilderCall :=
  match v with
  | .column column =>
    if column.Table = "excluded" then
      [.writeString "VALUES(", .writeQuoted { column with Table := "" }, .writeByte closeParen]
    else [.addVar v]
  | .other _ => [.addVar v]

/-- Local variables of the rendering loop together with the calls made so far. -/
structure RenderState where
  notFirstField : Bool
  hasWritten : Bool
  calls : List BuilderCall
deriving DecidableEq, Repr

/-- One iteration of the loop `for _, assignment := range onConflict.DoUpdates`. -/
def renderAssignment (s : Option Schema) (st : RenderState) (assignment : Assignment) :
    RenderState :=
  if isPrimaryOrUniqueKey s assignment.Column.Name then st
  else
    let c1 :=
      if st.hasWritten = false then st.calls ++ [.writeString "ON DUPLICATE KEY UPDATE "]
      else st.calls
    let c2 := if st.notFirstField = true then c1 ++ [.writeByte comma] else c1
    let c3 := c2 ++ [.writeQuoted assignment.Column, .writeByte equalsSign]
    { notFirstField := true, hasWritten := true, calls := c3 ++ valueCalls assignment.Value }

/-- Lines 297-311: the expression after the synthesis step, and the expression handed
to `AddClause`, if any. -/
def synthesize (s : Option Schema) (onConflict : OnConflict) : OnConflict × Option OnConflict :=
  if onConflict.DoUpdates.length = 0 then
    match s with
    | some sc =>
      let column : Column :=
        match sc.PrioritizedPrimaryField with
        | some f => { Table := "", Name := f.DBName, Alias := "", Raw := false }
        | none =>
          match sc.DBNames with
          | n :: _ => { Table := "", Name := n, Alias := "", Raw := false }
          | [] => { Table := "", Name := "", Alias := "", Raw := false }
      let oc1 : OnConflict :=
        if column.Name ≠ "" ∧ isPrimaryOrUniqueKey s column.Name = false then
          { onConflict with
            DoUpdates := [{ Column := column, Value := .column column }]
            DoNothing := false }
        else onConflict
      (oc1, some oc1)
    | none => (onConflict, none)
  else (onConflict, none)

/-- What a call of the clause builder does: the expression it hands to `AddClause`
of the statement, if any, and its calls on the builder, in order. -/
structure BuildResult where
  added : Option OnConflict
  written : List BuilderCall
deriving DecidableEq, Repr

/-- The function registered under `ClauseOnConflict` by `ClauseBuilders`, given the
`Schema` of the statement that is the builder and the expression of the clause. -/
def onConflictBuilder (s : Option Schema) (e : Expression) : BuildResult :=
  match e with
  | .other _ => { added := none, written := [.clauseBuild] }
  | .onConflict oc =>
    let (onConflict, added) := synthesize s oc
    let st := onConflict.DoUpdates.foldl (renderAssignment s)
      { notFirstField := false, hasWritten := false, calls := [] }
    let calls :=
      if st.hasWritten = false then st.calls ++ [.writeString "ON DUPLICATE KEY UPDATE NOTHING"]
      else st.calls
    { added := added, written := calls }

/-- The calls that render one assignment: the quoted column, `'='`, the value. -/
def assignmentCalls (a : Assignment) : List BuilderCall :=
  [.writeQuoted a.Column, .writeByte equalsSign] ++ valueCalls a.Value

/-- Whether `name` names a primary-key column of the schema: it is not empty and is
the `DBName` of one of the schema's primary fields, flagged `PrimaryKey`. -/
def isPrimaryKeyColumn (s : Option Schema) (name : String) : Bool :=
  match s with
  | none => false
  | some sc => name ≠ "" && sc.PrimaryFields.any (fun f => f.DBName == name && f.PrimaryKey)

/-- Whether `name` names a unique-key column of the schema: it is not empty and is
the `DBName` of one of the schema's fields, flagged `Unique`. -/
def isUniqueKeyColumn (s : Option Schema) (name : String) : Bool :=
  match s with
  | none => false
  | some sc => name ≠ "" && sc.Fields.any (fun f => f.DBName == name && f.Unique)

/-- The invariant of `PrimaryFields` in a schema: each of its members is flagged
`PrimaryKey`. -/
def primaryFieldsFlagged (s : Option Schema) : Prop :=
  ∀ sc, s = some sc → ∀ f ∈ sc.PrimaryFields, f.PrimaryKey = true

/-- A schema with the primary key `id`, the unique column `email` and the plain
column `name`. -/
def usersSchema : Schema :=
  { Fields := [⟨"id", true, false⟩, ⟨"email", false, true⟩, ⟨"name", false, false⟩]
    DBNames := ["id", "email", "name"]
    PrioritizedPrimaryField := some ⟨"id", true, false⟩
    PrimaryFields := [⟨"id", true, false⟩] }

/-- A schema without a primary key whose first declared column, `email`, is unique. -/
def contactsSchema : Schema :=
  { Fields := [⟨"email", false, true⟩, ⟨"name", false, false⟩]
    DBNames := ["email", "name"]
    PrioritizedPrimaryField := none
    PrimaryFields := [] }

/-- The column of the given name, without table, alias or raw flag. -/
def columnNamed (name : String) : Column :=
  { Table := "", Name := name, Alias := "", Raw := false }

/-! ## `getSerialDatabaseType` (gaussdb.go, lines 346-357) -/

/-- Embedding of `getSerialDatabaseType`. -/
def getSerialDatabaseType (s : String) : String × Bool :=
  if s = "smallserial" then ("smallint", true)
  else if s = "serial" then ("integer", true)
  else if s = "bigserial" then ("bigint", true)
  else ("", false)

/-! ## `Apply` (gaussdb.go, lines 51-72) -/

/-- Embedding of `schema.NamingStrategy` of the imported package `gorm.io/gorm/schema`; the
replacer is kept as a tag. -/
structure NamingStrategy where
  TablePrefix : String
  SingularTable : Bool
  NameReplacer : Option String
  NoLowerCase : Bool
  IdentifierMaxLength : Int
deriving DecidableEq, Repr

/-- The value of `config.NamingStrategy`, of interface type `schema.Namer`: `nil`; a
`*schema.NamingStrategy`, which is the nil pointer (`none`) or points to a strategy; a
`schema.NamingStrategy` held by value; or a value of another type. -/
inductive Namer where
  | unset
  | pointer (v : Option NamingStrategy)
  | value (v : NamingStrategy)
  | custom (tag : String)
deriving DecidableEq, Repr

/-- The naming strategy of `gorm.Config` and some of its other members. -/
structure GormConfig where
  SkipDefaultTransaction : Bool
  NamingStrategy : Namer
  DryRun : Bool
  PrepareStmt : Bool
deriving DecidableEq, Repr

/-- Embedding of `defaultIdentifierLength`. -/
def defaultIdentifierLength : Int := 63

/-- Embedding of `Dialector.Apply`: `none` when the call panics (the field access
`v.IdentifierMaxLength` on line 61 through a nil pointer); otherwise the configuration
after the call and the error returned (`none` is `nil`). -/
def Apply (config : GormConfig) : Option (GormConfig × Option String) :=
  match config.NamingStrategy with
  | .unset =>
    some ({ config with
        NamingStrategy := .value
          { TablePrefix := "", SingularTable := false, NameReplacer := none,
            NoLowerCase := false, IdentifierMaxLength := defaultIdentifierLength } }, none)
  | .pointer none => none
  | .pointer (some v) =>
    if v.IdentifierMaxLength ≤ 0 then
      some ({ config with
          NamingStrategy :=
            .pointer (some { v with IdentifierMaxLength := defaultIdentifierLength }) },
        none)
    else some (config, none)
  | .value v =>
    if v.IdentifierMaxLength ≤ 0 then
      some ({ config with
          NamingStrategy := .value { v with IdentifierMaxLength := defaultIdentifierLength } },
        none)
    else some (config, none)
  | .custom _ => some (config, none)

/-! ## `timeZoneMatcher` (gaussdb.go, line 35) -/

/-- The byte `'&'`. -/
def ampersand : Byte := 38

/-- The byte `' '`. -/
def space : Byte := 32

/-- The byte of the newline character. -/
def newline : Byte := 10

/-- Whether the first byte string starts with the second. -/
def beginsWith : List Byte → List Byte → Bool
  | _, [] => true
  | [], _ :: _ => false
  | c :: cs, d :: ds => c == d && beginsWith cs ds

/-- Whether the second byte string occurs in the first. -/
def occursIn : List Byte → List Byte → Bool
  | [], sub => beginsWith [] sub
  | c :: cs, sub => beginsWith (c :: cs) sub || occursIn cs sub

/-- The part `(time_zone|TimeZone)=` of the pattern at the start of `s`: the key
matched and what follows the `'='`. -/
def matchKey (s : List Byte) : Option (List Byte × List Byte) :=
  if beginsWith s (ascii "time_zone=") then some (ascii "time_zone", s.drop 10)
  else if beginsWith s (ascii "TimeZone=") then some (ascii "TimeZone", s.drop 9)
  else none

/-- The part `(.*?)($|&| )` of the pattern at the start of `s`: the shortest run of
bytes other than newline that is followed by the end of the text, `'&'` or `' '`,
and that terminator. -/
def matchValue : List Byte → Option (List Byte × List Byte)
  | [] => some ([], [])
  | c :: cs =>
    if c = ampersand ∨ c = space then some ([], [c])
    else if c = newline then none
    else
      match matchValue cs with
      | some (v, t) => some (c :: v, t)
      | none => none

/-- The pattern `(time_zone|TimeZone)=(.*?)($|&| )` at the start of `s`: the whole
match and its three groups. -/
def matchHere (s : List Byte) : Option (List (List Byte)) :=
  match matchKey s with
  | none => none
  | some (k, rest) =>
    match matchValue rest with
    | none => none
    | some (v, t) => some [k ++ [equalsSign] ++ v ++ t, k, v, t]

/-- Embedding of `timeZoneMatcher.FindStringSubmatch`: the leftmost match of the pattern with
its groups, or the empty list (`nil`) when there is none. -/
def timeZoneSubmatch : List Byte → List (List Byte)
  | [] => []
  | c :: cs =>
    match matchHere (c :: cs) with
    | some result => result
    | none => timeZoneSubmatch cs

/-! ## `Initialize` (gaussdb.go, lines 74-114) -/

/-- Embedding of `gaussdbgo.QueryExecMode`. -/
inductive QueryExecMode where
  | simpleProtocol
  | otherMode (n : Nat)
deriving DecidableEq, Repr

/-- The members of `gaussdbgo.ConnConfig` that `Initialize` writes. -/
structure ConnConfig where
  DefaultQueryExecMode : QueryExecMode
  RuntimeParams : String → Option (List Byte)

/-- A connection pool: one supplied in the configuration, one opened by `sql.Open`,
or one opened by `stdlib.OpenDB` from a native configuration. -/
inductive ConnPool where
  | supplied (name : String)
  | sqlOpen (driverName : String) (dsn : List Byte)
  | openDB (config : ConnConfig)

/-- Embedding of `Config`. -/
structure Config where
  DriverName : String
  DSN : List Byte
  WithoutQuotingCheck : Bool
  PreferSimpleProtocol : Bool
  WithoutReturning : Bool
  Conn : Option ConnPool

/-- Embedding of `callbacks.Config`. -/
structure CallbacksConfig where
  CreateClauses : List String
  UpdateClauses : List String
  DeleteClauses : List String
deriving DecidableEq, Repr

/-- Embedding of `clause.ClauseBuilder`, as a function of the schema of the statement and the
expression of the clause. -/
abbrev ClauseBuilder := Option Schema → Expression → BuildResult

/-- The members of `gorm.DB` that `Initialize` writes; `Callbacks` holds the
configuration given to `callbacks.RegisterDefaultCallbacks`. -/
structure DB where
  ConnPool : Option Gaussdb.ConnPool
  ClauseBuilders : String → Option ClauseBuilder
  Callbacks : Option CallbacksConfig

/-- Embedding of `ClauseOnConflict`. -/
def ClauseOnConflict : String := "ON CONFLICT"

/-- Embedding of `Dialector.ClauseBuilders`: the map, as the list of its entries. -/
def ClauseBuilders : List (String × ClauseBuilder) :=
  [(ClauseOnConflict, onConflictBuilder)]

/-- Lines 102-105: the time zone of the data-source string goes to the runtime
parameters. -/
def applyTimeZone (dsn : List Byte) (config : ConnConfig) : ConnConfig :=
  let result := timeZoneSubmatch dsn
  if result.length > 2 then
    { config with
      RuntimeParams := fun key =>
        if key = "timezone" then some (result.getD 2 []) else config.RuntimeParams key }
  else config

/-- One iteration of the loop `for k, v := range dialector.ClauseBuilders()`. -/
def registerBuilder (db : DB) (entry : String × ClauseBuilder) : DB :=
  match db.ClauseBuilders entry.1 with
  | some _ => db
  | none =>
    { db with
      ClauseBuilders := fun key => if key = entry.1 then some entry.2 else db.ClauseBuilders key }

/-- Embedding of `Dialector.Initialize`: the database handle after the call and the error returned
(`none` is `nil`); `parseConfig` stands for `gaussdbgo.ParseConfig` and `sqlOpen` for
the error of `sql.Open`. -/
def Initialize (parseConfig : List Byte → Except String ConnConfig)
    (sqlOpen : String → List Byte → Option String)
    (dialector : Config) (db : DB) : DB × Option String :=
  let callbackConfig : CallbacksConfig :=
    { CreateClauses := ["INSERT", "VALUES", "MERGE", "ON CONFLICT"]
      UpdateClauses := ["UPDATE", "SET", "FROM", "WHERE"]
      DeleteClauses := ["DELETE", "FROM", "WHERE"] }
  let callbackConfig : CallbacksConfig :=
    if dialector.WithoutReturning = false then
      { CreateClauses := callbackConfig.CreateClauses ++ ["RETURNING"]
        UpdateClauses := callbackConfig.UpdateClauses ++ ["RETURNING"]
        DeleteClauses := callbackConfig.DeleteClauses ++ ["RETURNING"] }
    else callbackConfig
  let db1 : DB := { db with Callbacks := some callbackConfig }
  match dialector.Conn with
  | some pool =>
    (ClauseBuilders.foldl registerBuilder { db1 with ConnPool := some pool }, none)
  | none =>
    if dialector.DriverName ≠ "" then
      match sqlOpen dialector.DriverName dialector.DSN with
      | none =>
        (ClauseBuilders.foldl registerBuilder
          { db1 with ConnPool := some (.sqlOpen dialector.DriverName dialector.DSN) }, none)
      | some err =>
        (ClauseBuilders.foldl registerBuilder { db1 with ConnPool := none }, some err)
    else
      match parseConfig dialector.DSN with
      | .error err => (db1, some err)
      | .ok config =>
        let config1 : ConnConfig :=
          if dialector.PreferSimpleProtocol = true then
            { config with DefaultQueryExecMode := .simpleProtocol }
          else config
        let config2 := applyTimeZone dialector.DSN config1
        (ClauseBuilders.foldl registerBuilder { db1 with ConnPool := some (.openDB config2) },
          none)

/-! ## Lemmas on the scanner of `QuoteTo` -/

theorem wrapInt8_of_range (x : Int) (h1 : -128 ≤ x) (h2 : x ≤ 127) : wrapInt8 x = x := by
  unfold wrapInt8
  omega

theorem quoteStep_plain_open (sq : Bool) (o : List Byte) (v : Byte)
    (h1 : v ≠ dquote) (h2 : v ≠ dot) :
    quoteStep ⟨false, sq, 0, 0, o⟩ v = ⟨true, false, 0, 1, o ++ [dquote, v]⟩ := by
  simp [quoteStep, h1, h2, wrapInt8, flushQuotes]

theorem quoteStep_plain_inside (sq : Bool) (sd : Int) (o : List Byte) (v : Byte)
    (h1 : v ≠ dquote) (h2 : v ≠ dot) :
    quoteStep ⟨true, sq, 0, sd, o⟩ v = ⟨true, sq, 0, wrapInt8 (sd + 1), o ++ [v]⟩ := by
  simp [quoteStep, h1, h2, flushQuotes]

theorem quoteStep_plain_pending (sq : Bool) (sd : Int) (o : List Byte) (v : Byte)
    (h1 : v ≠ dquote) (h2 : v ≠ dot) :
    quoteStep ⟨true, sq, 1, sd, o⟩ v
      = ⟨true, sq, 0, wrapInt8 (sd + 1), o ++ [dquote, dquote, v]⟩ := by
  simp [quoteStep, h1, h2, flushQuotes, wrapInt8]

theorem quoteStep_dquote_first (uq sq : Bool) (sd : Int) (o : List Byte) :
    quoteStep ⟨uq, sq, 0, sd, o⟩ dquote = ⟨uq, sq, 1, wrapInt8 (sd + 1), o⟩ := by
  simp [quoteStep, wrapInt8]

theorem quoteStep_dot_close (uq : Bool) (cb sd : Int) (o : List Byte) :
    quoteStep ⟨uq, false, cb, sd, o⟩ dot = ⟨false, false, 0, 0, o ++ [dquote, dot]⟩ := by
  simp [quoteStep, dot, dquote]

theorem foldl_plain_inside (sq : Bool) (l : List Byte)
    (hl : ∀ v ∈ l, v ≠ dquote ∧ v ≠ dot) :
    ∀ (sd : Int) (o : List Byte),
      ∃ sd1, l.foldl quoteStep ⟨true, sq, 0, sd, o⟩ = ⟨true, sq, 0, sd1, o ++ l⟩ := by
  induction l with
  | nil => intro sd o; exact ⟨sd, by simp⟩
  | cons v l ih =>
    intro sd o
    have hv := hl v (List.mem_cons_self v l)
    have hl1 : ∀ w ∈ l, w ≠ dquote ∧ w ≠ dot := fun w hw => hl w (List.mem_cons_of_mem v hw)
    obtain ⟨sd1, h⟩ := ih hl1 (wrapInt8 (sd + 1)) (o ++ [v])
    refine ⟨sd1, ?_⟩
    rw [List.foldl_cons, quoteStep_plain_inside sq sd o v hv.1 hv.2, h]
    simp

theorem foldl_segment (sq : Bool) (o : List Byte) (seg : List Byte) (hne : seg ≠ [])
    (hseg : ∀ v ∈ seg, v ≠ dquote ∧ v ≠ dot) :
    ∃ sd1, seg.foldl quoteStep ⟨false, sq, 0, 0, o⟩ = ⟨true, false, 0, sd1, o ++ dquote :: seg⟩ := by
  cases seg with
  | nil => exact absurd rfl hne
  | cons v l =>
    have hv := hseg v (List.mem_cons_self v l)
    have hl1 : ∀ w ∈ l, w ≠ dquote ∧ w ≠ dot := fun w hw => hseg w (List.mem_cons_of_mem v hw)
    obtain ⟨sd1, h⟩ := foldl_plain_inside false l hl1 1 (o ++ [dquote, v])
    refine ⟨sd1, ?_⟩
    rw [List.foldl_cons, quoteStep_plain_open sq o v hv.1 hv.2, h]
    simp

theorem intercalate_cons_cons (sep a b : List Byte) (r : List (List Byte)) :
    List.intercalate sep (a :: b :: r) = a ++ sep ++ List.intercalate sep (b :: r) := by
  simp [List.intercalate, List.intersperse]

theorem foldl_segments (segs : List (List Byte)) :
    ∀ (seg : List Byte) (sq : Bool) (o : List Byte),
      (∀ s ∈ seg :: segs, s ≠ [] ∧ ∀ v ∈ s, v ≠ dquote ∧ v ≠ dot) →
      ∃ sd1 o1,
        (List.intercalate [dot] (seg :: segs)).foldl quoteStep ⟨false, sq, 0, 0, o⟩
          = ⟨true, false, 0, sd1, o1⟩ ∧
        o1 ++ [dquote]
          = o ++ List.intercalate [dot] ((seg :: segs).map (fun s => [dquote] ++ s ++ [dquote])) := by
  induction segs with
  | nil =>
    intro seg sq o h
    have hs := h seg (List.mem_cons_self seg [])
    obtain ⟨sd1, h1⟩ := foldl_segment sq o seg hs.1 hs.2
    refine ⟨sd1, o ++ dquote :: seg, ?_, ?_⟩
    · simpa [List.intercalate] using h1
    · simp [List.intercalate]
  | cons seg2 segs ih =>
    intro seg sq o h
    have hs := h seg (List.mem_cons_self seg _)
    have hrest : ∀ s ∈ seg2 :: segs, s ≠ [] ∧ ∀ v ∈ s, v ≠ dquote ∧ v ≠ dot :=
      fun s hmem => h s (List.mem_cons_of_mem seg hmem)
    obtain ⟨sd1, h1⟩ := foldl_segment sq o seg hs.1 hs.2
    obtain ⟨sd2, o2, h2, h3⟩ := ih seg2 false (o ++ dquote :: seg ++ [dquote, dot]) hrest
    refine ⟨sd2, o2, ?_, ?_⟩
    · rw [intercalate_cons_cons, List.foldl_append, List.foldl_append, h1]
      rw [List.foldl_cons, List.foldl_nil, quoteStep_dot_close]
      simpa using h2
    · rw [h3]
      simp only [List.map_cons]
      rw [intercalate_cons_cons _ ([dquote] ++ seg ++ [dquote])]
      simp

theorem wrapInt8_range (x : Int) : -128 ≤ wrapInt8 x ∧ wrapInt8 x ≤ 127 := by
  unfold wrapInt8
  omega

/-- The bound given to `flushQuotes` is enough: the loop ends by its own condition,
with the counter at zero. -/
theorem flushQuotes_exit (n : Nat) :
    ∀ st : QuoteState, 0 ≤ st.continuousBacktick → st.continuousBacktick ≤ n →
      st.continuousBacktick ≤ 127 → (flushQuotes n st).continuousBacktick = 0 := by
  induction n with
  | zero =>
    intro st h0 h1 _
    simp only [flushQuotes]
    simp only [Nat.cast_zero] at h1
    omega
  | succ n ih =>
    intro st h0 h1 h2
    simp only [flushQuotes]
    split
    · rename_i hpos
      have hw : wrapInt8 (st.continuousBacktick - 1) = st.continuousBacktick - 1 :=
        wrapInt8_of_range _ (by omega) (by omega)
      apply ih
      · simp only [hw]; omega
      · simp only [hw]; push_cast at h1; omega
      · simp only [hw]; omega
    · omega

theorem flushQuotes_out (n : Nat) :
    ∀ st : QuoteState, ∃ r, (flushQuotes n st).out = st.out ++ r := by
  induction n with
  | zero => intro st; exact ⟨[], by simp [flushQuotes]⟩
  | succ n ih =>
    intro st
    simp only [flushQuotes]
    split
    · obtain ⟨r, hr⟩ := ih { st with
        out := st.out ++ [dquote, dquote]
        continuousBacktick := wrapInt8 (st.continuousBacktick - 1) }
      exact ⟨[dquote, dquote] ++ r, by rw [hr]; simp⟩
    · exact ⟨[], by simp⟩

theorem quoteStep_out (st : QuoteState) (v : Byte) :
    ∃ r, (quoteStep st v).out = st.out ++ r := by
  obtain ⟨uq, sq, cb, sd, o⟩ := st
  have hd : dot ≠ dquote := by decide
  by_cases h1 : v = dquote
  · subst h1
    by_cases c : wrapInt8 (cb + 1) = 2
    · exact ⟨[dquote, dquote], by simp [quoteStep, c]⟩
    · exact ⟨[], by simp [quoteStep, c]⟩
  · by_cases h2 : v = dot
    · subst h2
      by_cases c : cb > 0 ∨ sq = false
      · exact ⟨[dquote, dot], by simp [quoteStep, hd, c]⟩
      · exact ⟨[dot], by simp [quoteStep, hd, c]⟩
    · by_cases c : wrapInt8 (sd - cb) ≤ 0 ∧ uq = false
      · by_cases c2 : cb > 0
        · obtain ⟨r, hr⟩ := flushQuotes_out (wrapInt8 (cb - 1)).toNat
            ⟨true, true, wrapInt8 (cb - 1), sd, o ++ [dquote]⟩
          exact ⟨[dquote] ++ r ++ [v], by simp [quoteStep, h1, h2, c, c2, hr]⟩
        · obtain ⟨r, hr⟩ := flushQuotes_out cb.toNat ⟨true, false, cb, sd, o ++ [dquote]⟩
          exact ⟨[dquote] ++ r ++ [v], by simp [quoteStep, h1, h2, c, c2, hr]⟩
      · obtain ⟨r, hr⟩ := flushQuotes_out cb.toNat ⟨uq, sq, cb, sd, o⟩
        exact ⟨r ++ [v], by simp [quoteStep, h1, h2, c, hr]⟩

/-- In every state the scanner reaches from a counter in `{0, 1}` the counter stays in
`{0, 1}`, so the flushing loop always runs with enough iterations. -/
theorem quoteStep_backtick (st : QuoteState) (v : Byte)
    (h : st.continuousBacktick = 0 ∨ st.continuousBacktick = 1) :
    (quoteStep st v).continuousBacktick = 0 ∨ (quoteStep st v).continuousBacktick = 1 := by
  obtain ⟨uq, sq, cb, sd, o⟩ := st
  have hd : dot ≠ dquote := by decide
  simp only at h
  by_cases h1 : v = dquote
  · subst h1
    rcases h with rfl | rfl <;> simp [quoteStep, wrapInt8]
  · by_cases h2 : v = dot
    · subst h2
      rcases h with rfl | rfl
      · simp only [quoteStep, hd, if_false, if_true]
        split <;> simp
      · simp only [quoteStep, hd, if_false, if_true]
        split <;> simp
    · rcases h with rfl | rfl <;> simp [quoteStep, h1, h2] <;> split <;>
        simp [flushQuotes, wrapInt8]

theorem foldl_backtick (l : List Byte) :
    ∀ st : QuoteState, (st.continuousBacktick = 0 ∨ st.continuousBacktick = 1) →
      ((l.foldl quoteStep st).continuousBacktick = 0 ∨
        (l.foldl quoteStep st).continuousBacktick = 1) := by
  induction l with
  | nil => intro st h; simpa using h
  | cons v l ih =>
    intro st h
    rw [List.foldl_cons]
    exact ih _ (quoteStep_backtick st v h)

/-- On every state with the counter in `{0, 1}` the flushing loop, run with the bound
`quoteStep` gives it, ends with its condition `continuousBacktick > 0` false. -/
theorem flushQuotes_enough (st : QuoteState)
    (h : st.continuousBacktick = 0 ∨ st.continuousBacktick = 1) :
    (flushQuotes st.continuousBacktick.toNat st).continuousBacktick = 0 :=
  flushQuotes_exit _ st (by omega) (by omega) (by omega)

theorem quoteStep_fresh (w : List Byte) (cb : Int) (v : Byte)
    (h : cb = 0 ∨ cb = 1) :
    quoteStep ⟨false, false, cb, cb, w⟩ v = ⟨false, false, 1, 1, w⟩ ∨
      ∃ r, (quoteStep ⟨false, false, cb, cb, w⟩ v).out = w ++ dquote :: r := by
  have hd : dot ≠ dquote := by decide
  by_cases h1 : v = dquote
  · subst h1
    rcases h with rfl | rfl
    · left
      simp [quoteStep, wrapInt8]
    · right
      exact ⟨[dquote], by simp [quoteStep, wrapInt8]⟩
  · by_cases h2 : v = dot
    · subst h2
      right
      exact ⟨[dot], by simp [quoteStep, hd]⟩
    · right
      rcases h with rfl | rfl
      · exact ⟨[v], by simp [quoteStep, h1, h2, wrapInt8, flushQuotes]⟩
      · exact ⟨[v], by simp [quoteStep, h1, h2, wrapInt8, flushQuotes]⟩

theorem foldl_starts (w : List Byte) (l : List Byte) :
    ∀ st : QuoteState,
      (st = ⟨false, false, 0, 0, w⟩ ∨ st = ⟨false, false, 1, 1, w⟩ ∨
        ∃ r, st.out = w ++ dquote :: r) →
      (l.foldl quoteStep st = ⟨false, false, 0, 0, w⟩ ∨
        l.foldl quoteStep st = ⟨false, false, 1, 1, w⟩ ∨
        ∃ r, (l.foldl quoteStep st).out = w ++ dquote :: r) := by
  induction l with
  | nil => intro st h; simpa using h
  | cons v l ih =>
    intro st h
    rw [List.foldl_cons]
    apply ih
    rcases h with h | h | ⟨r, hr⟩
    · subst h
      rcases quoteStep_fresh w 0 v (Or.inl rfl) with k | k
      · exact Or.inr (Or.inl k)
      · exact Or.inr (Or.inr k)
    · subst h
      rcases quoteStep_fresh w 1 v (Or.inr rfl) with k | k
      · exact Or.inr (Or.inl k)
      · exact Or.inr (Or.inr k)
    · obtain ⟨r1, hr1⟩ := quoteStep_out st v
      exact Or.inr (Or.inr ⟨r ++ r1, by rw [hr1, hr]; simp⟩)

/-- With the quoting check enabled, for every input the text `QuoteTo` writes starts
with `'"'` and ends with `'"'`. -/
theorem QuoteTo_starts_and_ends_with_quote (writer str : List Byte) :
    (∃ r, QuoteTo false writer str = writer ++ dquote :: r) ∧
    (∃ r, QuoteTo false writer str = r ++ [dquote]) := by
  constructor
  · simp only [QuoteTo, Bool.false_eq_true, if_false, quoteInit]
    rcases foldl_starts writer str ⟨false, false, 0, 0, writer⟩ (Or.inl rfl) with h | h | ⟨r, hr⟩
    · exact ⟨[], by simp [h, quoteFinish]⟩
    · exact ⟨[dquote, dquote], by simp [h, quoteFinish]⟩
    · simp only [quoteFinish, hr]
      split
      · exact ⟨r ++ [dquote, dquote] ++ [dquote], by simp⟩
      · exact ⟨r ++ [dquote], by simp⟩
  · simp only [QuoteTo, Bool.false_eq_true, if_false, quoteFinish]
    exact ⟨_, rfl⟩

/-! ## Claims on `QuoteTo` -/

/-- C1: with the quoting check enabled, for a non-empty list of non-empty segments
containing neither `'"'` nor `'.'`, `QuoteTo` applied to the segments joined by `'.'`
writes exactly each segment wrapped in one pair of double quotes, joined by `'.'`;
no bound on the length of a segment is needed. -/
theorem QuoteTo_joined_segments (writer : List Byte) (segs : List (List Byte))
    (hne : segs ≠ [])
    (hseg : ∀ s ∈ segs, s ≠ [] ∧ ∀ v ∈ s, v ≠ dquote ∧ v ≠ dot) :
    QuoteTo false writer (List.intercalate [dot] segs)
      = writer ++ List.intercalate [dot] (segs.map (fun s => [dquote] ++ s ++ [dquote])) := by
  cases segs with
  | nil => exact absurd rfl hne
  | cons seg segs =>
    obtain ⟨sd1, o1, h1, h2⟩ := foldl_segments segs seg false writer hseg
    simp only [QuoteTo, quoteInit, Bool.false_eq_true, if_false, h1, quoteFinish]
    simpa using h2

/-- C1 at the inputs `a.b` and a single segment of 130 bytes `a`. -/
theorem QuoteTo_joined_segments_witness :
    QuoteTo false [] [97, 46, 98] = [34, 97, 34, 46, 34, 98, 34] ∧
    QuoteTo false [] (List.replicate 130 97) = [34] ++ List.replicate 130 97 ++ [34] := by
  constructor
  · simpa [dot, dquote, List.intercalate] using
      QuoteTo_joined_segments [] [[97], [98]] (by decide) (by decide)
  · simpa [dot, dquote, List.intercalate] using
      QuoteTo_joined_segments [] [List.replicate 130 97] (by decide)
        (by simp [dot, dquote])

/-- C2 (fails on the code): with the quoting check enabled, `QuoteTo` on the empty
string writes a single `'"'`, so the written text holds an odd number of `'"'`; it does
so too for `.a`, whose output is `"."a"`. -/
theorem QuoteTo_empty_unbalanced :
    QuoteTo false [] [] = [dquote] ∧
    ¬ Even ((QuoteTo false [] []).count dquote) ∧
    QuoteTo false [] [46, 97] = [34, 46, 34, 97, 34] ∧
    ¬ Even ((QuoteTo false [] [46, 97]).count dquote) := by
  decide

/-- C3: with the quoting check enabled, for a non-empty `a` and any `b`, neither
containing `'"'` nor `'.'`, `QuoteTo` applied to `a ++ '"' ++ b` writes exactly
`'"' ++ a ++ '""' ++ b ++ '"'`. -/
theorem QuoteTo_embedded_quote (writer a b : List Byte) (hne : a ≠ [])
    (ha : ∀ v ∈ a, v ≠ dquote ∧ v ≠ dot) (hb : ∀ v ∈ b, v ≠ dquote ∧ v ≠ dot) :
    QuoteTo false writer (a ++ [dquote] ++ b)
      = writer ++ ([dquote] ++ a ++ [dquote, dquote] ++ b ++ [dquote]) := by
  obtain ⟨sd1, h1⟩ := foldl_segment false writer a hne ha
  simp only [QuoteTo, quoteInit, Bool.false_eq_true, if_false, List.foldl_append, h1,
    List.foldl_cons, List.foldl_nil, quoteStep_dquote_first]
  cases b with
  | nil => simp [quoteFinish]
  | cons v l =>
    have hv := hb v (List.mem_cons_self v l)
    have hl : ∀ w ∈ l, w ≠ dquote ∧ w ≠ dot := fun w hw => hb w (List.mem_cons_of_mem v hw)
    obtain ⟨sd2, h2⟩ := foldl_plain_inside false l hl (wrapInt8 (wrapInt8 (sd1 + 1) + 1))
      (writer ++ dquote :: a ++ [dquote, dquote, v])
    rw [List.foldl_cons, quoteStep_plain_pending false _ _ v hv.1 hv.2, h2]
    simp [quoteFinish]

/-- C3 at `a = "ab"`, `b = "c"` and at `a = "a"`, `b` empty. -/
theorem QuoteTo_embedded_quote_witness :
    QuoteTo false [] [97, 98, 34, 99] = [34, 97, 98, 34, 34, 99, 34] ∧
    QuoteTo false [] [97, 34] = [34, 97, 34, 34, 34] := by
  constructor
  · simpa [dquote] using
      QuoteTo_embedded_quote [] [97, 98] [99] (by decide) (by decide) (by decide)
  · simpa [dquote] using
      QuoteTo_embedded_quote [] [97] [] (by decide) (by decide) (by decide)

/-- C4: when `WithoutQuotingCheck` is set, `QuoteTo` writes the input unchanged and
nothing else. -/
theorem QuoteTo_without_quoting_check (writer str : List Byte) :
    QuoteTo true writer str = writer ++ str := by
  simp [QuoteTo]

/-! ## Claims on `DataTypeOf` -/

theorem itoa_of_nonneg (n : Int) (h : 0 ≤ n) : itoa n = Nat.repr n.toNat := by
  have h1 : ¬ n < 0 := by omega
  have h2 : n.natAbs = n.toNat := by omega
  simp [itoa, h1, h2]

/-- C5: for a field of logical type signed integer and every size `s`, `DataTypeOf`
returns `smallint` / `integer` / `bigint` for `s ≤ 16` / `16 < s ≤ 32` / `32 < s` when the
field is not auto-increment, and `smallserial` / `serial` / `bigserial` under the same
three conditions when it is. -/
theorem DataTypeOf_signed_integer (toLower : String → String) (f : Field)
    (hty : f.DataType = schema.Int) :
    (f.AutoIncrement = false →
      (f.Size ≤ 16 → DataTypeOf toLower f = "smallint") ∧
      (16 < f.Size → f.Size ≤ 32 → DataTypeOf toLower f = "integer") ∧
      (32 < f.Size → DataTypeOf toLower f = "bigint")) ∧
    (f.AutoIncrement = true →
      (f.Size ≤ 16 → DataTypeOf toLower f = "smallserial") ∧
      (16 < f.Size → f.Size ≤ 32 → DataTypeOf toLower f = "serial") ∧
      (32 < f.Size → DataTypeOf toLower f = "bigserial")) := by
  have hdt : DataTypeOf toLower f
      = if f.AutoIncrement = true then serialOfSize f.Size else integerOfSize f.Size := by
    simp [DataTypeOf, hty, schema.Int, schema.Bool, schema.Uint]
  rw [hdt]
  refine ⟨fun ha => ⟨fun h1 => ?_, fun h1 h2 => ?_, fun h1 => ?_⟩,
    fun ha => ⟨fun h1 => ?_, fun h1 h2 => ?_, fun h1 => ?_⟩⟩
  · simp [ha, integerOfSize, h1]
  · simp [ha, integerOfSize, h2, not_le.mpr h1]
  · have h2 : 16 < f.Size := by omega
    simp [ha, integerOfSize, not_le.mpr h1, not_le.mpr h2]
  · simp [ha, serialOfSize, h1]
  · simp [ha, serialOfSize, h2, not_le.mpr h1]
  · have h2 : 16 < f.Size := by omega
    simp [ha, serialOfSize, not_le.mpr h1, not_le.mpr h2]

/-- C5 at size 16: `smallint` without auto-increment, `smallserial` with it. -/
theorem DataTypeOf_signed_integer_witness :
    DataTypeOf id ⟨schema.Int, schema.Int, 16, 0, 0, false⟩ = "smallint" ∧
    DataTypeOf id ⟨schema.Int, schema.Int, 16, 0, 0, true⟩ = "smallserial" :=
  ⟨((DataTypeOf_signed_integer id ⟨schema.Int, schema.Int, 16, 0, 0, false⟩ rfl).1 rfl).1
      (by decide),
   ((DataTypeOf_signed_integer id ⟨schema.Int, schema.Int, 16, 0, 0, true⟩ rfl).2 rfl).1
      (by decide)⟩

theorem intIncr_of_lt_max (x : Int) (h1 : minInt64 ≤ x) (h2 : x < maxInt64) :
    intIncr x = x + 1 := by
  unfold intIncr wrapInt64
  unfold minInt64 at h1
  unfold maxInt64 at h2
  omega

theorem DataTypeOf_unsigned (toLower : String → String) (f : Field)
    (hty : f.DataType = schema.Uint) :
    DataTypeOf toLower f
      = if f.AutoIncrement = true then serialOfSize (intIncr f.Size)
        else integerOfSize (intIncr f.Size) := by
  simp [DataTypeOf, hty, schema.Int, schema.Bool, schema.Uint]

/-- Below the largest `int`, an unsigned-integer field of size `s` is mapped like a
signed-integer field of size `s + 1` with the same auto-increment flag. -/
theorem DataTypeOf_unsigned_eq_signed_succ (toLower : String → String)
    (g : DataType) (s p c : Int) (a : Bool) (h1 : minInt64 ≤ s) (h2 : s < maxInt64) :
    DataTypeOf toLower ⟨schema.Uint, g, s, p, c, a⟩
      = DataTypeOf toLower ⟨schema.Int, g, s + 1, p, c, a⟩ := by
  rw [DataTypeOf_unsigned toLower _ rfl]
  simp [DataTypeOf, schema.Int, schema.Bool, schema.Uint, intIncr_of_lt_max s h1 h2]

/-- C6 (fails on the code): at the largest size of Go's `int`, `2^63 - 1`, the increment
`size++` of an unsigned-integer field wraps to `-2^63`, and `DataTypeOf` returns the
small tier (`smallint` / `smallserial`) where the claim has the big tier. -/
theorem DataTypeOf_unsigned_maxInt_small (toLower : String → String) :
    intIncr maxInt64 = minInt64 ∧
    DataTypeOf toLower ⟨schema.Uint, schema.Uint, maxInt64, 0, 0, false⟩ = "smallint" ∧
    DataTypeOf toLower ⟨schema.Uint, schema.Uint, maxInt64, 0, 0, true⟩ = "smallserial" := by
  have h : intIncr maxInt64 = minInt64 := by decide
  refine ⟨h, ?_, ?_⟩
  · rw [DataTypeOf_unsigned toLower _ rfl]
    simp [h, integerOfSize, minInt64]
  · rw [DataTypeOf_unsigned toLower _ rfl]
    simp [h, serialOfSize, minInt64]

/-- C7: for a field of logical type string with size `s`, `DataTypeOf` returns
`varchar(s)`, with `s` in decimal, if `0 < s ≤ 10485760`, and `text` otherwise. -/
theorem DataTypeOf_string (toLower : String → String) (f : Field)
    (hty : f.DataType = schema.String) :
    (0 < f.Size → f.Size ≤ 10485760 →
      DataTypeOf toLower f = "varchar(" ++ Nat.repr f.Size.toNat ++ ")") ∧
    (f.Size ≤ 0 ∨ 10485760 < f.Size → DataTypeOf toLower f = "text") := by
  have hdt : DataTypeOf toLower f
      = if f.Size > 0 ∧ f.Size ≤ 10485760 then "varchar(" ++ itoa f.Size ++ ")" else "text" := by
    simp [DataTypeOf, hty, schema.Int, schema.Bool, schema.Uint, schema.Float, schema.String]
  rw [hdt]
  refine ⟨fun h1 h2 => ?_, fun h => ?_⟩
  · rw [if_pos ⟨h1, h2⟩, itoa_of_nonneg f.Size (le_of_lt h1)]
  · rw [if_neg (by omega)]

/-- C7 at sizes 100 and 0. -/
theorem DataTypeOf_string_witness :
    DataTypeOf id ⟨schema.String, schema.String, 100, 0, 0, false⟩ = "varchar(100)" ∧
    DataTypeOf id ⟨schema.String, schema.String, 0, 0, 0, false⟩ = "text" :=
  ⟨(DataTypeOf_string id ⟨schema.String, schema.String, 100, 0, 0, false⟩ rfl).1
      (by decide) (by decide),
   (DataTypeOf_string id ⟨schema.String, schema.String, 0, 0, 0, false⟩ rfl).2
      (Or.inl (by decide))⟩

/-- C8: for a field of logical type float with precision `P` and scale `S`, `DataTypeOf`
returns `numeric(P, S)` (comma, one space) when `P > 0` and `S > 0`, `numeric(P)` when
`P > 0` and `S ≤ 0`, and `decimal` when `P ≤ 0`. -/
theorem DataTypeOf_float (toLower : String → String) (f : Field)
    (hty : f.DataType = schema.Float) :
    (0 < f.Precision → 0 < f.Scale →
      DataTypeOf toLower f
        = "numeric(" ++ Nat.repr f.Precision.toNat ++ ", " ++ Nat.repr f.Scale.toNat ++ ")") ∧
    (0 < f.Precision → f.Scale ≤ 0 →
      DataTypeOf toLower f = "numeric(" ++ Nat.repr f.Precision.toNat ++ ")") ∧
    (f.Precision ≤ 0 → DataTypeOf toLower f = "decimal") := by
  have hdt : DataTypeOf toLower f
      = if f.Precision > 0 then
          if f.Scale > 0 then
            "numeric(" ++ itoa f.Precision ++ ", " ++ itoa f.Scale ++ ")"
          else "numeric(" ++ itoa f.Precision ++ ")"
        else "decimal" := by
    simp [DataTypeOf, hty, schema.Int, schema.Bool, schema.Uint, schema.Float]
  rw [hdt]
  refine ⟨fun h1 h2 => ?_, fun h1 h2 => ?_, fun h1 => ?_⟩
  · rw [if_pos h1, if_pos h2, itoa_of_nonneg _ (le_of_lt h1), itoa_of_nonneg _ (le_of_lt h2)]
  · rw [if_pos h1, if_neg (by omega), itoa_of_nonneg _ (le_of_lt h1)]
  · rw [if_neg (by omega)]

/-- C8 at precision 10 with scale 2, precision 10 with scale 0, and precision 0. -/
theorem DataTypeOf_float_witness :
    DataTypeOf id ⟨schema.Float, schema.Float, 0, 10, 2, false⟩ = "numeric(10, 2)" ∧
    DataTypeOf id ⟨schema.Float, schema.Float, 0, 10, 0, false⟩ = "numeric(10)" ∧
    DataTypeOf id ⟨schema.Float, schema.Float, 0, 0, 5, false⟩ = "decimal" :=
  ⟨(DataTypeOf_float id ⟨schema.Float, schema.Float, 0, 10, 2, false⟩ rfl).1
      (by decide) (by decide),
   (DataTypeOf_float id ⟨schema.Float, schema.Float, 0, 10, 0, false⟩ rfl).2.1
      (by decide) (by decide),
   (DataTypeOf_float id ⟨schema.Float, schema.Float, 0, 0, 5, false⟩ rfl).2.2 (by decide)⟩

/-- The custom-type branch of `DataTypeOf`, with the size as the code computes it: for
a field whose logical type is none of boolean, signed or unsigned integer, float,
string, time, bytes, the type string is returned unchanged if the field is not
auto-increment or the lower-cased type string contains `serial`; otherwise the result
is `smallserial` / `serial` / `bigserial` for size `≤ 16` / `≤ 32` / else, the size
having gone through the wrapping `size++` when the ORM-level type is unsigned integer. -/
theorem DataTypeOf_custom_type (toLower : String → String) (f : Field)
    (h1 : f.DataType ≠ schema.Bool) (h2 : f.DataType ≠ schema.Int)
    (h3 : f.DataType ≠ schema.Uint) (h4 : f.DataType ≠ schema.Float)
    (h5 : f.DataType ≠ schema.String) (h6 : f.DataType ≠ schema.Time)
    (h7 : f.DataType ≠ schema.Bytes) :
    (f.AutoIncrement = false ∨ strContains (toLower f.DataType) "serial" = true →
      DataTypeOf toLower f = f.DataType) ∧
    (f.AutoIncrement = true → strContains (toLower f.DataType) "serial" = false →
      ∀ size : Int,
        size = (if f.GORMDataType = schema.Uint then intIncr f.Size else f.Size) →
        (size ≤ 16 → DataTypeOf toLower f = "smallserial") ∧
        (16 < size → size ≤ 32 → DataTypeOf toLower f = "serial") ∧
        (32 < size → DataTypeOf toLower f = "bigserial")) := by
  have hdt : DataTypeOf toLower f = getSchemaCustomType toLower f := by
    simp [DataTypeOf, h1, h2, h3, h4, h5, h6, h7]
  rw [hdt]
  refine ⟨fun h => ?_, fun ha hs size hsize => ?_⟩
  · rcases h with h | h
    · simp [getSchemaCustomType, h]
    · simp [getSchemaCustomType, h]
  · have hg : getSchemaCustomType toLower f = serialOfSize size := by
      simp [getSchemaCustomType, ha, hs, hsize]
    rw [hg]
    refine ⟨fun k1 => ?_, fun k1 k2 => ?_, fun k1 => ?_⟩
    · simp [serialOfSize, k1]
    · simp [serialOfSize, k2, not_le.mpr k1]
    · have k2 : 16 < size := by omega
      simp [serialOfSize, not_le.mpr k1, not_le.mpr k2]

/-- Below the largest `int`, the custom-type branch of `DataTypeOf` on an
auto-increment field whose type string does not contain `serial` and whose ORM-level
type is unsigned integer gives the tier of the size increased by one. -/
theorem DataTypeOf_custom_type_below_max (toLower : String → String) (f : Field)
    (h1 : f.DataType ≠ schema.Bool) (h2 : f.DataType ≠ schema.Int)
    (h3 : f.DataType ≠ schema.Uint) (h4 : f.DataType ≠ schema.Float)
    (h5 : f.DataType ≠ schema.String) (h6 : f.DataType ≠ schema.Time)
    (h7 : f.DataType ≠ schema.Bytes)
    (ha : f.AutoIncrement = true) (hs : strContains (toLower f.DataType) "serial" = false)
    (hu : f.GORMDataType = schema.Uint) (hmin : minInt64 ≤ f.Size) (hmax : f.Size < maxInt64) :
    (f.Size + 1 ≤ 16 → DataTypeOf toLower f = "smallserial") ∧
    (16 < f.Size + 1 → f.Size + 1 ≤ 32 → DataTypeOf toLower f = "serial") ∧
    (32 < f.Size + 1 → DataTypeOf toLower f = "bigserial") :=
  (DataTypeOf_custom_type toLower f h1 h2 h3 h4 h5 h6 h7).2 ha hs (f.Size + 1)
    (by rw [if_pos hu, intIncr_of_lt_max f.Size hmin hmax])

/-- C9 (fails on the code): for the custom type `oid`, which `strings.ToLower` leaves
unchanged, on an auto-increment field whose ORM-level type is unsigned integer and
whose size is the largest `int`, `2^63 - 1`, the increment `size++` of line 259 wraps
to `-2^63` and `DataTypeOf` returns `smallserial`, where the size increased by one is
above 32 and the claim has `bigserial`. -/
theorem DataTypeOf_custom_unsigned_maxInt_small (toLower : String → String)
    (hlow : toLower "oid" = "oid") :
    DataTypeOf toLower ⟨"oid", schema.Uint, maxInt64, 0, 0, true⟩ = "smallserial" ∧
    (32 : Int) < maxInt64 + 1 := by
  have hinc : intIncr maxInt64 = minInt64 := by decide
  have hs : strContains "oid" "serial" = false := by decide
  have hdt : DataTypeOf toLower ⟨"oid", schema.Uint, maxInt64, 0, 0, true⟩
      = getSchemaCustomType toLower ⟨"oid", schema.Uint, maxInt64, 0, 0, true⟩ := by
    simp [DataTypeOf, schema.Bool, schema.Int, schema.Uint, schema.Float, schema.String,
      schema.Time, schema.Bytes]
  refine ⟨?_, by decide⟩
  rw [hdt]
  simp [getSchemaCustomType, hlow, hs, hinc, serialOfSize, minInt64]

/-- C9 at the failing input, with the identity for `strings.ToLower`, which agrees
with it on `oid`. -/
theorem DataTypeOf_custom_unsigned_maxInt_small_witness :
    DataTypeOf id ⟨"oid", schema.Uint, maxInt64, 0, 0, true⟩ = "smallserial" :=
  (DataTypeOf_custom_unsigned_maxInt_small id rfl).1

/-! ## Claims on `BindVarTo` -/

theorem itoa_natCast (n : Nat) : itoa (n : Int) = Nat.repr n := by
  rw [itoa_of_nonneg _ (Int.ofNat_nonneg n)]
  simp

/-- C10: for a statement with `n` bound variables `BindVarTo` writes exactly `'$'`
followed by the decimal rendering of `N`, where `N = n` if the list is empty or its first
element is not an execution-mode marker and `N = n - 1` if its first element is one; the
elements after the first and the value being bound do not influence the output. -/
theorem BindVarTo_placeholder (writer : List Byte) (vars : List Value) (v : Value) :
    ((vars = [] ∨ ∃ x rest, vars = x :: rest ∧ x.isQueryExecMode = false) →
      BindVarTo writer vars v = writer ++ [dollar] ++ ascii (Nat.repr vars.length)) ∧
    (∀ x rest, vars = x :: rest → x.isQueryExecMode = true →
      BindVarTo writer vars v = writer ++ [dollar] ++ ascii (Nat.repr (vars.length - 1))) ∧
    (∀ x rest rest1, vars = x :: rest → rest1.length = rest.length →
      BindVarTo writer (x :: rest1) v = BindVarTo writer vars v) ∧
    (∀ v1, BindVarTo writer vars v1 = BindVarTo writer vars v) := by
  refine ⟨fun h => ?_, fun x rest hv hx => ?_, fun x rest rest1 hv hl => ?_, fun v1 => rfl⟩
  · rcases h with h | ⟨x, rest, h, hx⟩
    · subst h
      simp [BindVarTo, ← itoa_natCast]
    · subst h
      have hpos : (0 : Int) < (rest.length : Int) + 1 := by omega
      simp [BindVarTo, hx, hpos, ← itoa_natCast]
  · subst hv
    have hpos : (0 : Int) < (rest.length : Int) + 1 := by omega
    simp [BindVarTo, hx, hpos, ← itoa_natCast]
  · subst hv
    simp [BindVarTo, hl]

/-- C10 for three bound variables, without and with a leading execution-mode marker. -/
theorem BindVarTo_placeholder_witness :
    BindVarTo [] [.other "a", .other "b", .other "c"] (.other "c") = [36, 51] ∧
    BindVarTo [] [.queryExecMode 1, .other "a", .other "b"] (.other "b") = [36, 50] :=
  ⟨(BindVarTo_placeholder [] [.other "a", .other "b", .other "c"] (.other "c")).1
      (Or.inr ⟨.other "a", [.other "b", .other "c"], rfl, rfl⟩),
   (BindVarTo_placeholder [] [.queryExecMode 1, .other "a", .other "b"] (.other "b")).2.1
      (.queryExecMode 1) [.other "a", .other "b"] rfl rfl⟩

/-! ## Lemmas on the `ON CONFLICT` clause builder -/

theorem intercalate_cons_cons_calls {α : Type} (sep a b : List α) (r : List (List α)) :
    List.intercalate sep (a :: b :: r) = a ++ sep ++ List.intercalate sep (b :: r) := by
  simp [List.intercalate, List.intersperse]

theorem intercalate_singleton_calls {α : Type} (sep a : List α) :
    List.intercalate sep [a] = a := by
  simp [List.intercalate]

/-- The rendering loop, from any state: nothing changes when every assignment is
skipped; otherwise the kept assignments are written in order, after the header if
nothing was written before and a comma if an assignment was. -/
theorem foldl_renderAssignment (s : Option Schema) (l : List Assignment) :
    ∀ (nf hw : Bool) (calls : List BuilderCall),
      l.foldl (renderAssignment s) ⟨nf, hw, calls⟩ =
        if l.filter (fun a => !isPrimaryOrUniqueKey s a.Column.Name) = [] then ⟨nf, hw, calls⟩
        else
          ⟨true, true,
            calls ++ (if hw = false then [.writeString "ON DUPLICATE KEY UPDATE "] else []) ++
              (if nf = true then [.writeByte comma] else []) ++
              List.intercalate [.writeByte comma]
                ((l.filter (fun a => !isPrimaryOrUniqueKey s a.Column.Name)).map
                  assignmentCalls)⟩ := by
  induction l with
  | nil => intro nf hw calls; simp
  | cons a l ih =>
    intro nf hw calls
    rw [List.foldl_cons]
    by_cases hk : isPrimaryOrUniqueKey s a.Column.Name = true
    · have hstep : renderAssignment s ⟨nf, hw, calls⟩ a = ⟨nf, hw, calls⟩ := by
        simp [renderAssignment, hk]
      rw [hstep, ih]
      simp [List.filter_cons, hk]
    · have hk1 : isPrimaryOrUniqueKey s a.Column.Name = false := by simpa using hk
      have hstep : renderAssignment s ⟨nf, hw, calls⟩ a =
          ⟨true, true,
            calls ++ (if hw = false then [.writeString "ON DUPLICATE KEY UPDATE "] else []) ++
              (if nf = true then [.writeByte comma] else []) ++ assignmentCalls a⟩ := by
        cases nf <;> cases hw <;> simp [renderAssignment, hk1, assignmentCalls]
      rw [hstep, ih]
      simp only [List.filter_cons, hk1, Bool.not_false, if_true]
      by_cases hrest : l.filter (fun a => !isPrimaryOrUniqueKey s a.Column.Name) = []
      · simp [hrest, intercalate_singleton_calls]
      · obtain ⟨b, r, hbr⟩ := List.exists_cons_of_ne_nil hrest
        simp [hbr, intercalate_cons_cons_calls]

theorem isPrimaryOrUniqueKey_of_primary (s : Option Schema) (name : String)
    (h : isPrimaryKeyColumn s name = true) : isPrimaryOrUniqueKey s name = true := by
  cases s with
  | none => simp [isPrimaryKeyColumn] at h
  | some sc =>
    simp only [isPrimaryKeyColumn, Bool.and_eq_true, decide_eq_true_eq, List.any_eq_true,
      beq_iff_eq] at h
    obtain ⟨hne, f, hf, hname, hpk⟩ := h
    simp only [isPrimaryOrUniqueKey, hne, if_false, List.any_eq_true, Bool.and_eq_true,
      beq_iff_eq, Bool.or_eq_true]
    exact ⟨f, hf, hname, Or.inl hpk⟩

theorem isPrimaryOrUniqueKey_eq_primary (s : Option Schema) (name : String)
    (hwf : primaryFieldsFlagged s) :
    isPrimaryOrUniqueKey s name = isPrimaryKeyColumn s name := by
  cases s with
  | none => simp [isPrimaryKeyColumn, isPrimaryOrUniqueKey]
  | some sc =>
    by_cases hne : name = ""
    · simp [isPrimaryKeyColumn, isPrimaryOrUniqueKey, hne]
    · rw [Bool.eq_iff_iff]
      constructor
      · intro h
        simp only [isPrimaryOrUniqueKey, hne, if_false, List.any_eq_true, Bool.and_eq_true,
          beq_iff_eq, Bool.or_eq_true] at h
        obtain ⟨f, hf, hname, _⟩ := h
        simp only [isPrimaryKeyColumn, Bool.and_eq_true, decide_eq_true_eq, List.any_eq_true,
          beq_iff_eq]
        exact ⟨hne, f, hf, hname, hwf sc rfl f hf⟩
      · exact isPrimaryOrUniqueKey_of_primary (some sc) name

theorem synthesize_of_ne_nil (s : Option Schema) (oc : OnConflict) (hne : oc.DoUpdates ≠ []) :
    synthesize s oc = (oc, none) := by
  have h : ¬ oc.DoUpdates.length = 0 := by
    intro h0
    exact hne (List.length_eq_zero.mp h0)
  simp [synthesize, h]

/-- The calls of the clause builder on an on-conflict expression: the text
`ON DUPLICATE KEY UPDATE NOTHING` when every assignment left after the synthesis step
is skipped, and otherwise the header followed by the kept assignments, separated by
commas. -/
theorem onConflictBuilder_written (s : Option Schema) (oc : OnConflict) :
    (onConflictBuilder s (.onConflict oc)).written =
      if (synthesize s oc).1.DoUpdates.filter
          (fun a => !isPrimaryOrUniqueKey s a.Column.Name) = [] then
        [.writeString "ON DUPLICATE KEY UPDATE NOTHING"]
      else
        .writeString "ON DUPLICATE KEY UPDATE " ::
          List.intercalate [.writeByte comma]
            (((synthesize s oc).1.DoUpdates.filter
              (fun a => !isPrimaryOrUniqueKey s a.Column.Name)).map assignmentCalls) := by
  simp only [onConflictBuilder, foldl_renderAssignment]
  split <;> simp

theorem onConflictBuilder_added (s : Option Schema) (oc : OnConflict) :
    (onConflictBuilder s (.onConflict oc)).added = (synthesize s oc).2 := by
  simp [onConflictBuilder]

/-! ## Claims on the `ON CONFLICT` clause builder -/

/-- C11: for an on-conflict expression with a non-empty assignment list, at least one
of whose assignments targets a column that is not a primary key, the clause builder
writes `ON DUPLICATE KEY UPDATE ` followed by the renderings quoted column, `'='`, value
of exactly the assignments whose target is not a primary-key column, in their order,
separated by single commas; an assignment targeting a primary-key column is left out. -/
theorem onConflict_renders_non_primary (s : Option Schema) (oc : OnConflict)
    (hwf : primaryFieldsFlagged s) (hne : oc.DoUpdates ≠ [])
    (hex : ∃ a ∈ oc.DoUpdates, isPrimaryKeyColumn s a.Column.Name = false) :
    (onConflictBuilder s (.onConflict oc)).written =
      .writeString "ON DUPLICATE KEY UPDATE " ::
        List.intercalate [.writeByte comma]
          ((oc.DoUpdates.filter (fun a => !isPrimaryKeyColumn s a.Column.Name)).map
            assignmentCalls) := by
  have hfun : (fun a : Assignment => !isPrimaryOrUniqueKey s a.Column.Name)
      = (fun a : Assignment => !isPrimaryKeyColumn s a.Column.Name) := by
    funext a
    rw [isPrimaryOrUniqueKey_eq_primary s _ hwf]
  rw [onConflictBuilder_written, synthesize_of_ne_nil s oc hne, hfun]
  obtain ⟨a, ha, hka⟩ := hex
  have hkept : oc.DoUpdates.filter (fun a => !isPrimaryKeyColumn s a.Column.Name) ≠ [] := by
    intro h0
    have hmem : a ∈ oc.DoUpdates.filter (fun a => !isPrimaryKeyColumn s a.Column.Name) := by
      simp [List.mem_filter, ha, hka]
    rw [h0] at hmem
    simp at hmem
  simp [hkept]

/-- C11 on a schema with primary key `id`: of the assignments to `id`, `name` and
`email`, the ones to `name` and `email` are written, separated by one comma. -/
theorem onConflict_renders_non_primary_witness :
    (onConflictBuilder (some usersSchema) (.onConflict
        { Columns := [], OnConstraint := "", DoNothing := false, UpdateAll := false
          DoUpdates := [⟨columnNamed "id", .other "1"⟩, ⟨columnNamed "name", .other "n"⟩,
            ⟨columnNamed "email", .other "e"⟩] })).written =
      [.writeString "ON DUPLICATE KEY UPDATE ",
        .writeQuoted (columnNamed "name"), .writeByte 61, .addVar (.other "n"),
        .writeByte 44,
        .writeQuoted (columnNamed "email"), .writeByte 61, .addVar (.other "e")] :=
  (onConflict_renders_non_primary (some usersSchema)
      { Columns := [], OnConstraint := "", DoNothing := false, UpdateAll := false
        DoUpdates := [⟨columnNamed "id", .other "1"⟩, ⟨columnNamed "name", .other "n"⟩,
          ⟨columnNamed "email", .other "e"⟩] }
      (by intro sc h; cases h; decide) (by decide)
      ⟨⟨columnNamed "name", .other "n"⟩, by decide, by decide⟩).trans (by decide)

theorem mem_intercalate_calls {α : Type} (sep : List α) (x : α) :
    ∀ ls : List (List α), x ∈ List.intercalate sep ls → x ∈ sep ∨ ∃ l ∈ ls, x ∈ l := by
  intro ls
  induction ls with
  | nil => intro h; simp [List.intercalate] at h
  | cons a r ih =>
    intro h
    cases r with
    | nil =>
      rw [intercalate_singleton_calls] at h
      exact Or.inr ⟨a, List.mem_cons_self a [], h⟩
    | cons b r =>
      rw [intercalate_cons_cons_calls] at h
      rcases List.mem_append.mp h with h1 | h1
      · rcases List.mem_append.mp h1 with h2 | h2
        · exact Or.inr ⟨a, List.mem_cons_self a _, h2⟩
        · exact Or.inl h2
      · rcases ih h1 with h2 | ⟨l, hl, hx⟩
        · exact Or.inl h2
        · exact Or.inr ⟨l, List.mem_cons_of_mem a hl, hx⟩

theorem intercalate_split_calls {α : Type} (sep x : List α) (l2 : List (List α)) :
    ∀ l1 : List (List α),
      ∃ pre post, List.intercalate sep (l1 ++ x :: l2) = pre ++ x ++ post := by
  intro l1
  induction l1 with
  | nil =>
    cases l2 with
    | nil => exact ⟨[], [], by simp [intercalate_singleton_calls]⟩
    | cons b r => exact ⟨[], sep ++ List.intercalate sep (b :: r), by
        simp [intercalate_cons_cons_calls]⟩
  | cons a l1 ih =>
    obtain ⟨pre, post, h⟩ := ih
    have hne : l1 ++ x :: l2 ≠ [] := by simp
    obtain ⟨b, r, hbr⟩ := List.exists_cons_of_ne_nil hne
    refine ⟨a ++ sep ++ pre, post, ?_⟩
    rw [List.cons_append, hbr, intercalate_cons_cons_calls, ← hbr, h]
    simp

theorem nothing_not_mem_assignmentCalls (a : Assignment) :
    BuilderCall.writeString "ON DUPLICATE KEY UPDATE NOTHING" ∉ assignmentCalls a := by
  obtain ⟨c, v⟩ := a
  cases v with
  | column col =>
    by_cases h : col.Table = "excluded" <;> simp [assignmentCalls, valueCalls, h]
  | other p => simp [assignmentCalls, valueCalls]

/-- The text `ON DUPLICATE KEY UPDATE NOTHING` is the whole output when no `WriteQuoted`
call is made, and it is written only then; this is the case when every assignment
targets a primary-key column, and when the assignment list is empty and nothing is
synthesized, as without a schema or when the prioritized primary column is a primary
key. -/
theorem onConflictBuilder_nothing_cases (s : Option Schema) (oc : OnConflict) :
    ((∀ c, BuilderCall.writeQuoted c ∉ (onConflictBuilder s (.onConflict oc)).written) ↔
      (onConflictBuilder s (.onConflict oc)).written = [.writeString "ON DUPLICATE KEY UPDATE NOTHING"]) ∧
    (BuilderCall.writeString "ON DUPLICATE KEY UPDATE NOTHING" ∈ (onConflictBuilder s (.onConflict oc)).written →
      (onConflictBuilder s (.onConflict oc)).written = [.writeString "ON DUPLICATE KEY UPDATE NOTHING"]) ∧
    (oc.DoUpdates ≠ [] → (∀ a ∈ oc.DoUpdates, isPrimaryKeyColumn s a.Column.Name = true) →
      (onConflictBuilder s (.onConflict oc)).written = [.writeString "ON DUPLICATE KEY UPDATE NOTHING"]) ∧
    (oc.DoUpdates = [] → (synthesize s oc).1.DoUpdates = [] →
      (onConflictBuilder s (.onConflict oc)).written = [.writeString "ON DUPLICATE KEY UPDATE NOTHING"]) ∧
    (oc.DoUpdates = [] → s = none →
      (onConflictBuilder s (.onConflict oc)).written = [.writeString "ON DUPLICATE KEY UPDATE NOTHING"]) ∧
    (oc.DoUpdates = [] → ∀ sc f, s = some sc → sc.PrioritizedPrimaryField = some f →
      isPrimaryKeyColumn s f.DBName = true →
      (onConflictBuilder s (.onConflict oc)).written = [.writeString "ON DUPLICATE KEY UPDATE NOTHING"]) := by
  have hW := onConflictBuilder_written s oc
  refine ⟨⟨fun h => ?_, fun h c => ?_⟩, fun h => ?_, fun hne hall => ?_, fun h0 hs => ?_,
    fun h0 hs => ?_, fun h0 sc f hs hp hk => ?_⟩
  · by_cases hk : (synthesize s oc).1.DoUpdates.filter
        (fun a => !isPrimaryOrUniqueKey s a.Column.Name) = []
    · rw [hW, if_pos hk]
    · exfalso
      obtain ⟨a, r, har⟩ := List.exists_cons_of_ne_nil hk
      apply h a.Column
      rw [hW, if_neg hk, har]
      cases r with
      | nil => simp [intercalate_singleton_calls, assignmentCalls]
      | cons b r => simp [intercalate_cons_cons_calls, assignmentCalls]
  · rw [h]
    simp
  · by_cases hk : (synthesize s oc).1.DoUpdates.filter
        (fun a => !isPrimaryOrUniqueKey s a.Column.Name) = []
    · rw [hW, if_pos hk]
    · exfalso
      rw [hW, if_neg hk] at h
      rcases List.mem_cons.mp h with h1 | h1
      · exact absurd h1 (by decide)
      · rcases mem_intercalate_calls _ _ _ h1 with h2 | ⟨l, hl, hx⟩
        · simp at h2
        · obtain ⟨a, _, rfl⟩ := List.mem_map.mp hl
          exact nothing_not_mem_assignmentCalls a hx
  · rw [hW, synthesize_of_ne_nil s oc hne, if_pos]
    apply List.filter_eq_nil_iff.mpr
    intro a ha
    simp [isPrimaryOrUniqueKey_of_primary s _ (hall a ha)]
  · rw [hW, if_pos]
    simp [hs]
  · rw [hW, if_pos]
    simp [synthesize, h0, hs]
  · rw [hW, if_pos]
    subst hs
    simp [synthesize, h0, hp, isPrimaryOrUniqueKey_of_primary (some sc) _ hk]

/-- C12 (fails on the code): every assignment of the list targets a key column, `id`
being a primary key and `email` a unique key of the schema, yet the clause builder
renders the assignment to `email` and does not write `ON DUPLICATE KEY UPDATE NOTHING`. -/
theorem onConflict_key_columns_not_nothing :
    (∀ a ∈ [(⟨columnNamed "id", .other "1"⟩ : Assignment), ⟨columnNamed "email", .other "e"⟩],
      isPrimaryKeyColumn (some usersSchema) a.Column.Name = true ∨
        isUniqueKeyColumn (some usersSchema) a.Column.Name = true) ∧
    (onConflictBuilder (some usersSchema) (.onConflict
        ⟨[], "", false,
          [⟨columnNamed "id", .other "1"⟩, ⟨columnNamed "email", .other "e"⟩], false⟩)).written
      = [.writeString "ON DUPLICATE KEY UPDATE ",
          .writeQuoted (columnNamed "email"), .writeByte 61, .addVar (.other "e")] ∧
    (onConflictBuilder (some usersSchema) (.onConflict
        ⟨[], "", false,
          [⟨columnNamed "id", .other "1"⟩, ⟨columnNamed "email", .other "e"⟩], false⟩)).written
      ≠ [.writeString "ON DUPLICATE KEY UPDATE NOTHING"] := by
  decide

/-- C13 (fails on the code): `email` is a unique-key column of the schema and not a
primary key; `isPrimaryOrUniqueKey` scans the primary fields only and returns `false`
for it, and the clause builder writes the assignment to `email`. -/
theorem onConflict_unique_column_written :
    isUniqueKeyColumn (some usersSchema) "email" = true ∧
    isPrimaryOrUniqueKey (some usersSchema) "email" = false ∧
    (onConflictBuilder (some usersSchema) (.onConflict
        ⟨[], "", false, [⟨columnNamed "email", .other "e"⟩], false⟩)).written
      = [.writeString "ON DUPLICATE KEY UPDATE ",
          .writeQuoted (columnNamed "email"), .writeByte 61, .addVar (.other "e")] := by
  decide

/-- C14: for every assignment that is rendered (an assignment of the list, or the
synthesized one, whose target is not skipped as a key column), the value follows the
quoted column and `'='`: a column reference whose table is `excluded` is written as
`VALUES(`, the quoted column without the table, `)`; every other value goes to the
statement's variable binder `AddVar`. -/
theorem onConflict_value_rendering (s : Option Schema) (oc : OnConflict) (a : Assignment)
    (ha : a ∈ (synthesize s oc).1.DoUpdates)
    (hk : isPrimaryOrUniqueKey s a.Column.Name = false) :
    (∀ col, a.Value = .column col → col.Table = "excluded" →
      ∃ pre post, (onConflictBuilder s (.onConflict oc)).written =
        pre ++ [.writeQuoted a.Column, .writeByte equalsSign, .writeString "VALUES(",
          .writeQuoted { col with Table := "" }, .writeByte closeParen] ++ post) ∧
    ((∀ col, a.Value = .column col → col.Table ≠ "excluded") →
      ∃ pre post, (onConflictBuilder s (.onConflict oc)).written =
        pre ++ [.writeQuoted a.Column, .writeByte equalsSign, .addVar a.Value] ++ post) := by
  have hmem : a ∈ (synthesize s oc).1.DoUpdates.filter
      (fun a => !isPrimaryOrUniqueKey s a.Column.Name) := by
    simp [List.mem_filter, ha, hk]
  have hkept : (synthesize s oc).1.DoUpdates.filter
      (fun a => !isPrimaryOrUniqueKey s a.Column.Name) ≠ [] :=
    List.ne_nil_of_mem hmem
  obtain ⟨l1, l2, hsplit⟩ := List.append_of_mem hmem
  obtain ⟨pre, post, hpp⟩ := intercalate_split_calls [BuilderCall.writeByte comma]
    (assignmentCalls a) (l2.map assignmentCalls) (l1.map assignmentCalls)
  have hW : (onConflictBuilder s (.onConflict oc)).written =
      (.writeString "ON DUPLICATE KEY UPDATE " :: pre) ++ assignmentCalls a ++ post := by
    rw [onConflictBuilder_written, if_neg hkept, hsplit]
    simp only [List.map_append, List.map_cons]
    rw [hpp]
    simp
  refine ⟨fun col hv ht => ?_, fun hv => ?_⟩
  · refine ⟨.writeString "ON DUPLICATE KEY UPDATE " :: pre, post, ?_⟩
    rw [hW]
    simp [assignmentCalls, valueCalls, hv, ht]
  · refine ⟨.writeString "ON DUPLICATE KEY UPDATE " :: pre, post, ?_⟩
    rw [hW]
    cases hval : a.Value with
    | column col =>
      have hne2 : col.Table ≠ "excluded" := hv col hval
      simp [assignmentCalls, valueCalls, hval, hne2]
    | other p => simp [assignmentCalls, valueCalls, hval]

/-- C14 for the assignments `name = excluded.name` and `name = users.name`. -/
theorem onConflict_value_rendering_witness :
    (∃ pre post, (onConflictBuilder (some usersSchema) (.onConflict
        ⟨[], "", false,
          [⟨columnNamed "name", .column ⟨"excluded", "name", "", false⟩⟩], false⟩)).written =
      pre ++ [.writeQuoted (columnNamed "name"), .writeByte equalsSign,
        .writeString "VALUES(", .writeQuoted ⟨"", "name", "", false⟩,
        .writeByte closeParen] ++ post) ∧
    (∃ pre post, (onConflictBuilder (some usersSchema) (.onConflict
        ⟨[], "", false,
          [⟨columnNamed "name", .column ⟨"users", "name", "", false⟩⟩], false⟩)).written =
      pre ++ [.writeQuoted (columnNamed "name"), .writeByte equalsSign,
        .addVar (.column ⟨"users", "name", "", false⟩)] ++ post) :=
  ⟨(onConflict_value_rendering (some usersSchema)
      ⟨[], "", false, [⟨columnNamed "name", .column ⟨"excluded", "name", "", false⟩⟩], false⟩
      ⟨columnNamed "name", .column ⟨"excluded", "name", "", false⟩⟩
      (by decide) (by decide)).1 ⟨"excluded", "name", "", false⟩ rfl rfl,
   (onConflict_value_rendering (some usersSchema)
      ⟨[], "", false, [⟨columnNamed "name", .column ⟨"users", "name", "", false⟩⟩], false⟩
      ⟨columnNamed "name", .column ⟨"users", "name", "", false⟩⟩
      (by decide) (by decide)).2
      (by intro col h; cases h; decide)⟩

/-- The clause builder on an empty assignment list with a schema: with `c` the name
of the prioritized primary field, or else the first declared column name, it hands the
expression to `AddClause`, with the self-assignment `c = c` and the do-nothing flag
cleared exactly when `c` is not empty and `isPrimaryOrUniqueKey` is false on it. -/
theorem onConflictBuilder_empty_updates (sc : Schema) (oc : OnConflict) (c : String)
    (h0 : oc.DoUpdates = [])
    (hc : c = (sc.PrioritizedPrimaryField.map (fun f => f.DBName)).getD (sc.DBNames.headD "")) :
    (c ≠ "" ∧ isPrimaryOrUniqueKey (some sc) c = false →
      onConflictBuilder (some sc) (.onConflict oc) =
        { added := some { oc with
            DoUpdates := [⟨columnNamed c, .column (columnNamed c)⟩]
            DoNothing := false }
          written := [.writeString "ON DUPLICATE KEY UPDATE ",
            .writeQuoted (columnNamed c), .writeByte equalsSign,
            .addVar (.column (columnNamed c))] }) ∧
    (¬ (c ≠ "" ∧ isPrimaryOrUniqueKey (some sc) c = false) →
      onConflictBuilder (some sc) (.onConflict oc) =
        { added := some oc
          written := [.writeString "ON DUPLICATE KEY UPDATE NOTHING"] }) := by
  have hcol : (match sc.PrioritizedPrimaryField with
      | some f => ({ Table := "", Name := f.DBName, Alias := "", Raw := false } : Column)
      | none =>
        match sc.DBNames with
        | n :: _ => { Table := "", Name := n, Alias := "", Raw := false }
        | [] => { Table := "", Name := "", Alias := "", Raw := false }) = columnNamed c := by
    rw [hc]
    cases sc.PrioritizedPrimaryField with
    | some f => simp [columnNamed]
    | none => cases sc.DBNames <;> simp [columnNamed]
  have hsyn : synthesize (some sc) oc =
      (if c ≠ "" ∧ isPrimaryOrUniqueKey (some sc) c = false then
          { oc with
            DoUpdates := [⟨columnNamed c, .column (columnNamed c)⟩]
            DoNothing := false }
        else oc,
       some (if c ≠ "" ∧ isPrimaryOrUniqueKey (some sc) c = false then
          { oc with
            DoUpdates := [⟨columnNamed c, .column (columnNamed c)⟩]
            DoNothing := false }
        else oc)) := by
    simp only [synthesize, h0, List.length_nil, if_true, hcol]
    simp [columnNamed]
  refine ⟨fun h => ?_, fun h => ?_⟩
  · simp only [onConflictBuilder, hsyn, if_pos h]
    simp [renderAssignment, h.2, columnNamed, valueCalls]
  · simp only [onConflictBuilder, hsyn, if_neg h]
    simp [h0]

/-- The clause builder on an empty assignment list without a schema: nothing is
synthesized or handed to `AddClause`. -/
theorem onConflictBuilder_empty_updates_no_schema (oc : OnConflict) (h0 : oc.DoUpdates = []) :
    onConflictBuilder none (.onConflict oc) =
      { added := none, written := [.writeString "ON DUPLICATE KEY UPDATE NOTHING"] } := by
  simp [onConflictBuilder, synthesize, h0]

/-- C15 (fails on the code): the schema has no primary key and its first declared
column `email` is a unique-key column; on an empty assignment list the clause builder
synthesizes `email = email`, clears the do-nothing flag and writes the assignment. -/
theorem onConflict_synthesizes_unique_column :
    isUniqueKeyColumn (some contactsSchema) "email" = true ∧
    onConflictBuilder (some contactsSchema) (.onConflict ⟨[], "", true, [], false⟩) =
      { added := some ⟨[], "", false,
          [⟨columnNamed "email", .column (columnNamed "email")⟩], false⟩
        written := [.writeString "ON DUPLICATE KEY UPDATE ",
          .writeQuoted (columnNamed "email"), .writeByte 61,
          .addVar (.column (columnNamed "email"))] } := by
  decide

/-! ## Claims on `Apply` and `Initialize` -/

/-- When the naming strategy is not a nil pointer `Apply` returns, with no error:
without a naming strategy it installs a default one whose maximum identifier length is
63; a standard naming strategy, held by pointer or by value, with maximum length `≤ 0`
gets the length 63 and keeps every other field; with a positive maximum length, and
for a strategy of another type, the configuration is left unchanged. -/
theorem Apply_of_strategy (config : GormConfig) :
    (config.NamingStrategy ≠ .pointer none → ∃ c, Apply config = some (c, none)) ∧
    (config.NamingStrategy = .unset →
      Apply config =
        some ({ config with NamingStrategy := .value ⟨"", false, none, false, 63⟩ }, none)) ∧
    (∀ v, config.NamingStrategy = .pointer (some v) → v.IdentifierMaxLength ≤ 0 →
      Apply config =
        some ({ config with
          NamingStrategy := .pointer (some { v with IdentifierMaxLength := 63 }) }, none)) ∧
    (∀ v, config.NamingStrategy = .value v → v.IdentifierMaxLength ≤ 0 →
      Apply config =
        some ({ config with
          NamingStrategy := .value { v with IdentifierMaxLength := 63 } }, none)) ∧
    (∀ v, config.NamingStrategy = .pointer (some v) ∨ config.NamingStrategy = .value v →
      0 < v.IdentifierMaxLength → Apply config = some (config, none)) ∧
    (∀ t, config.NamingStrategy = .custom t → Apply config = some (config, none)) := by
  obtain ⟨skip, ns, dry, prep⟩ := config
  refine ⟨fun h => ?_, fun h => ?_, fun v h hv => ?_, fun v h hv => ?_, fun v h hv => ?_,
    fun t h => ?_⟩
  · cases ns with
    | unset => exact ⟨_, rfl⟩
    | pointer v =>
      cases v with
      | none => exact absurd rfl h
      | some v => by_cases hv : v.IdentifierMaxLength ≤ 0 <;> simp [Apply, hv]
    | value v => by_cases hv : v.IdentifierMaxLength ≤ 0 <;> simp [Apply, hv]
    | custom t => exact ⟨_, rfl⟩
  · simp only at h
    subst h
    simp [Apply, defaultIdentifierLength]
  · simp only at h
    subst h
    simp [Apply, hv, defaultIdentifierLength]
  · simp only at h
    subst h
    simp [Apply, hv, defaultIdentifierLength]
  · have hv1 : ¬ v.IdentifierMaxLength ≤ 0 := not_le.mpr hv
    simp only at h
    rcases h with h | h <;> subst h <;> simp [Apply, hv1]
  · simp only at h
    subst h
    simp [Apply]

/-- C16 (fails on the code): a configuration whose naming strategy is a nil
`*schema.NamingStrategy` held in the interface passes the test `== nil` of line 52,
enters the pointer case of the type switch, and `Apply` panics on line 61. -/
theorem Apply_nil_pointer_panics (skip dry prep : Bool) :
    Apply ⟨skip, .pointer none, dry, prep⟩ = none := by
  simp [Apply]

theorem registerBuilder_lookup (db : DB) (entry : String × ClauseBuilder) (k : String) :
    (registerBuilder db entry).ClauseBuilders k =
      if (db.ClauseBuilders entry.1).isNone = true ∧ k = entry.1 then some entry.2
      else db.ClauseBuilders k := by
  unfold registerBuilder
  cases h : db.ClauseBuilders entry.1 with
  | some b => simp
  | none => by_cases hk : k = entry.1 <;> simp [hk]

/-- The registry after `Initialize`: untouched when the data-source string does not
parse, and otherwise with the adapter's builder added under `ON CONFLICT` if that key
was absent. -/
theorem Initialize_builders (parseConfig : List Byte → Except String ConnConfig)
    (sqlOpen : String → List Byte → Option String) (dialector : Config) (db : DB) :
    ((Initialize parseConfig sqlOpen dialector db).2 ≠ none ∧ (Initialize parseConfig sqlOpen dialector db).1.ClauseBuilders = db.ClauseBuilders) ∨
    (∀ k, (Initialize parseConfig sqlOpen dialector db).1.ClauseBuilders k =
      if (db.ClauseBuilders ClauseOnConflict).isNone = true ∧ k = ClauseOnConflict then
        some onConflictBuilder
      else db.ClauseBuilders k) := by
  unfold Initialize
  cases hconn : dialector.Conn with
  | some pool =>
    right
    intro k
    simp [ClauseBuilders, registerBuilder_lookup]
  | none =>
    by_cases hd : dialector.DriverName = ""
    · cases hp : parseConfig dialector.DSN with
      | error err =>
        left
        simp [hd, hp]
      | ok config =>
        right
        intro k
        simp [hd, hp, ClauseBuilders, registerBuilder_lookup]
    · cases ho : sqlOpen dialector.DriverName dialector.DSN with
      | none =>
        right
        intro k
        simp [hd, ho, ClauseBuilders, registerBuilder_lookup]
      | some err =>
        right
        intro k
        simp [hd, ho, ClauseBuilders, registerBuilder_lookup]

/-- C17: `Initialize` leaves the builder under every key already present in the
registry unchanged, and after a successful call the key `ON CONFLICT` is present,
holding the adapter's builder when the key was absent before and the builder it held
before otherwise. -/
theorem Initialize_registers_builders (parseConfig : List Byte → Except String ConnConfig)
    (sqlOpen : String → List Byte → Option String) (dialector : Config) (db : DB) :
    (∀ k b, db.ClauseBuilders k = some b → (Initialize parseConfig sqlOpen dialector db).1.ClauseBuilders k = some b) ∧
    ((Initialize parseConfig sqlOpen dialector db).2 = none → ((Initialize parseConfig sqlOpen dialector db).1.ClauseBuilders "ON CONFLICT").isSome = true) ∧
    ((Initialize parseConfig sqlOpen dialector db).2 = none → db.ClauseBuilders "ON CONFLICT" = none →
      (Initialize parseConfig sqlOpen dialector db).1.ClauseBuilders "ON CONFLICT" = some onConflictBuilder) ∧
    ((Initialize parseConfig sqlOpen dialector db).2 = none → (∀ b, db.ClauseBuilders "ON CONFLICT" = some b → b ≠ onConflictBuilder) →
      ((Initialize parseConfig sqlOpen dialector db).1.ClauseBuilders "ON CONFLICT" = some onConflictBuilder ↔
        db.ClauseBuilders "ON CONFLICT" = none)) := by
  have hkey : ClauseOnConflict = "ON CONFLICT" := rfl
  rcases Initialize_builders parseConfig sqlOpen dialector db with ⟨herr, hsame⟩ | hreg
  · refine ⟨fun k b hb => ?_, fun h => absurd h herr, fun h => absurd h herr,
      fun h => absurd h herr⟩
    rw [hsame, hb]
  · rw [hkey] at hreg
    refine ⟨fun k b hb => ?_, fun _ => ?_, fun _ habs => ?_, fun _ hfresh => ?_⟩
    · rw [hreg k]
      by_cases hk : k = "ON CONFLICT"
      · subst hk
        simp [hb]
      · simp [hk, hb]
    · rw [hreg "ON CONFLICT"]
      cases hb : db.ClauseBuilders "ON CONFLICT" <;> simp
    · rw [hreg "ON CONFLICT"]
      simp [habs]
    · rw [hreg "ON CONFLICT"]
      cases hb : db.ClauseBuilders "ON CONFLICT" with
      | none => simp
      | some b =>
        have hne := hfresh b hb
        simp only [reduceCtorEq, false_and, if_false, iff_false]
        intro heq
        exact hne (Option.some.inj heq)

/-- C17 with a supplied connection pool: on an empty registry the adapter's builder
is registered under `ON CONFLICT`; a builder already registered there is kept. -/
theorem Initialize_registers_builders_witness :
    (Initialize (fun _ => .error "unused") (fun _ _ => none)
        ⟨"", [], false, false, false, some (.supplied "pool")⟩
        ⟨none, fun _ => none, none⟩).1.ClauseBuilders "ON CONFLICT"
      = some onConflictBuilder ∧
    (Initialize (fun _ => .error "unused") (fun _ _ => none)
        ⟨"", [], false, false, false, some (.supplied "pool")⟩
        ⟨none, fun k => if k = "ON CONFLICT" then some (fun _ _ => ⟨none, []⟩) else none,
          none⟩).1.ClauseBuilders "ON CONFLICT"
      = some (fun _ _ => ⟨none, []⟩) :=
  ⟨(Initialize_registers_builders (fun _ => .error "unused") (fun _ _ => none)
      ⟨"", [], false, false, false, some (.supplied "pool")⟩
      ⟨none, fun _ => none, none⟩).2.2.1 rfl rfl,
   (Initialize_registers_builders (fun _ => .error "unused") (fun _ _ => none)
      ⟨"", [], false, false, false, some (.supplied "pool")⟩
      ⟨none, fun k => if k = "ON CONFLICT" then some (fun _ _ => ⟨none, []⟩) else none,
        none⟩).1 "ON CONFLICT" (fun _ _ => ⟨none, []⟩) rfl⟩

/-! ## Lemmas on `timeZoneMatcher` -/

theorem ascii_time_zone : ascii "time_zone" = [116, 105, 109, 101, 95, 122, 111, 110, 101] := by
  decide

theorem ascii_time_zone_eq :
    ascii "time_zone=" = [116, 105, 109, 101, 95, 122, 111, 110, 101, 61] := by
  decide

theorem ascii_TimeZone : ascii "TimeZone" = [84, 105, 109, 101, 90, 111, 110, 101] := by
  decide

theorem ascii_TimeZone_eq : ascii "TimeZone=" = [84, 105, 109, 101, 90, 111, 110, 101, 61] := by
  decide

theorem beginsWith_append (a b : List Byte) :
    ∀ pat : List Byte, beginsWith (a ++ b) pat = true →
      beginsWith a pat = true ∨
        (a.length < pat.length ∧ beginsWith b (pat.drop a.length) = true) := by
  induction a with
  | nil =>
    intro pat h
    cases pat with
    | nil => left; simp [beginsWith]
    | cons d ds => right; simpa using h
  | cons c a ih =>
    intro pat h
    cases pat with
    | nil => left; simp [beginsWith]
    | cons d ds =>
      simp only [List.cons_append, beginsWith, Bool.and_eq_true] at h
      rcases ih ds h.2 with h1 | ⟨h1, h2⟩
      · left
        simp [beginsWith, h.1, h1]
      · right
        simp only [List.length_cons, List.drop_succ_cons]
        exact ⟨by omega, h2⟩

/-- No occurrence of `time_zone=` or `TimeZone=` starts before a key and runs into it. -/
theorem beginsWith_straddle (a k pat rest : List Byte) (hne : a ≠ [])
    (hk : k = ascii "time_zone" ∨ k = ascii "TimeZone")
    (hpat : pat = ascii "time_zone=" ∨ pat = ascii "TimeZone=")
    (ha : beginsWith a pat = false) :
    beginsWith (a ++ (k ++ equalsSign :: rest)) pat = false := by
  by_contra h
  have h1 : beginsWith (a ++ (k ++ equalsSign :: rest)) pat = true := by simpa using h
  rcases beginsWith_append _ _ pat h1 with h2 | ⟨hlt, h2⟩
  · rw [ha] at h2
    exact absurd h2 (by decide)
  · have hpos : 0 < a.length := List.length_pos.mpr hne
    generalize a.length = m at hlt h2 hpos
    rcases hk with rfl | rfl <;> rcases hpat with rfl | rfl
    · rw [ascii_time_zone_eq] at hlt h2
      rw [ascii_time_zone] at h2
      simp only [List.length_cons, List.length_nil] at hlt
      interval_cases m <;> simp [beginsWith] at h2
    · rw [ascii_TimeZone_eq] at hlt h2
      rw [ascii_time_zone] at h2
      simp only [List.length_cons, List.length_nil] at hlt
      interval_cases m <;> simp [beginsWith] at h2
    · rw [ascii_time_zone_eq] at hlt h2
      rw [ascii_TimeZone] at h2
      simp only [List.length_cons, List.length_nil] at hlt
      interval_cases m <;> simp [beginsWith] at h2
    · rw [ascii_TimeZone_eq] at hlt h2
      rw [ascii_TimeZone] at h2
      simp only [List.length_cons, List.length_nil] at hlt
      interval_cases m <;> simp [beginsWith] at h2

theorem matchKey_at_key (k rest : List Byte)
    (hk : k = ascii "time_zone" ∨ k = ascii "TimeZone") :
    matchKey (k ++ equalsSign :: rest) = some (k, rest) := by
  rcases hk with rfl | rfl
  · simp [matchKey, ascii_time_zone, ascii_time_zone_eq, beginsWith, equalsSign]
  · simp [matchKey, ascii_TimeZone, ascii_time_zone_eq, ascii_TimeZone_eq, beginsWith,
      equalsSign]

theorem matchValue_run (r : List Byte)
    (hr : r = [] ∨ ∃ r1, r = ampersand :: r1 ∨ r = space :: r1) :
    ∀ v : List Byte, (∀ c ∈ v, c ≠ ampersand ∧ c ≠ space ∧ c ≠ newline) →
      matchValue (v ++ r) = some (v, r.take 1) := by
  intro v
  induction v with
  | nil =>
    intro _
    rcases hr with rfl | ⟨r1, rfl | rfl⟩ <;> simp [matchValue]
  | cons c v ih =>
    intro hv
    have hc := hv c (List.mem_cons_self c v)
    have hrest : ∀ d ∈ v, d ≠ ampersand ∧ d ≠ space ∧ d ≠ newline :=
      fun d hd => hv d (List.mem_cons_of_mem c hd)
    simp [matchValue, hc.1, hc.2.1, hc.2.2, ih hrest]

theorem matchHere_of_no_key (s : List Byte)
    (h1 : beginsWith s (ascii "time_zone=") = false)
    (h2 : beginsWith s (ascii "TimeZone=") = false) : matchHere s = none := by
  simp [matchHere, matchKey, h1, h2]

theorem timeZoneSubmatch_of_matchHere (s : List Byte) (result : List (List Byte))
    (h : matchHere s = some result) : timeZoneSubmatch s = result := by
  cases s with
  | nil => simp [matchHere, matchKey, beginsWith, ascii_time_zone_eq, ascii_TimeZone_eq] at h
  | cons c cs => simp only [timeZoneSubmatch, h]

/-- The leftmost match: after a text `p` without `time_zone=` or `TimeZone=`, at a key
followed by `'='`, a value `v` free of `'&'`, `' '` and newline, and a rest `r` that is
empty or begins with `'&'` or `' '`. -/
theorem timeZoneSubmatch_at_key (k v r : List Byte)
    (hk : k = ascii "time_zone" ∨ k = ascii "TimeZone")
    (hv : ∀ c ∈ v, c ≠ ampersand ∧ c ≠ space ∧ c ≠ newline)
    (hr : r = [] ∨ ∃ r1, r = ampersand :: r1 ∨ r = space :: r1) :
    ∀ p : List Byte, occursIn p (ascii "time_zone=") = false →
      occursIn p (ascii "TimeZone=") = false →
      timeZoneSubmatch (p ++ (k ++ equalsSign :: (v ++ r))) =
        [k ++ [equalsSign] ++ v ++ r.take 1, k, v, r.take 1] := by
  intro p
  induction p with
  | nil =>
    intro _ _
    have hm : matchHere (k ++ equalsSign :: (v ++ r)) =
        some [k ++ [equalsSign] ++ v ++ r.take 1, k, v, r.take 1] := by
      simp [matchHere, matchKey_at_key k _ hk, matchValue_run r hr v hv]
    rw [List.nil_append]
    exact timeZoneSubmatch_of_matchHere _ _ hm
  | cons c p ih =>
    intro h1 h2
    simp only [occursIn, Bool.or_eq_false_iff] at h1 h2
    have hn : matchHere (c :: p ++ (k ++ equalsSign :: (v ++ r))) = none :=
      matchHere_of_no_key _
        (beginsWith_straddle (c :: p) k _ _ (by simp) hk (Or.inl rfl) h1.1)
        (beginsWith_straddle (c :: p) k _ _ (by simp) hk (Or.inr rfl) h2.1)
    simp only [List.cons_append] at hn ⊢
    simp only [timeZoneSubmatch, hn]
    exact ih h1.2 h2.2

theorem timeZoneSubmatch_of_no_key :
    ∀ s : List Byte, occursIn s (ascii "time_zone=") = false →
      occursIn s (ascii "TimeZone=") = false → timeZoneSubmatch s = [] := by
  intro s
  induction s with
  | nil => intro _ _; simp [timeZoneSubmatch]
  | cons c s ih =>
    intro h1 h2
    simp only [occursIn, Bool.or_eq_false_iff] at h1 h2
    simp only [timeZoneSubmatch, matchHere_of_no_key _ h1.1 h2.1]
    exact ih h1.2 h2.2

theorem applyTimeZone_of_submatch (dsn : List Byte) (config : ConnConfig)
    (whole k v t : List Byte) (h : timeZoneSubmatch dsn = [whole, k, v, t]) :
    (applyTimeZone dsn config).RuntimeParams "timezone" = some v ∧
    (∀ key, key ≠ "timezone" →
      (applyTimeZone dsn config).RuntimeParams key = config.RuntimeParams key) ∧
    (applyTimeZone dsn config).DefaultQueryExecMode = config.DefaultQueryExecMode := by
  refine ⟨?_, fun key hkey => ?_, ?_⟩
  · simp [applyTimeZone, h]
  · simp [applyTimeZone, h, hkey]
  · simp [applyTimeZone, h]

/-- With no supplied pool and no driver name, when the data-source string parses,
`Initialize` opens the pool from the parsed configuration after `applyTimeZone`. -/
theorem Initialize_native_pool (parseConfig : List Byte → Except String ConnConfig)
    (sqlOpen : String → List Byte → Option String) (dialector : Config) (db : DB)
    (config : ConnConfig) (hconn : dialector.Conn = none) (hdriver : dialector.DriverName = "")
    (hparse : parseConfig dialector.DSN = .ok config) :
    ∃ pool, (Initialize parseConfig sqlOpen dialector db).1.ConnPool = some (.openDB pool) ∧
      pool = applyTimeZone dialector.DSN
        (if dialector.PreferSimpleProtocol = true then
          { config with DefaultQueryExecMode := .simpleProtocol }
        else config) := by
  refine ⟨_, ?_, rfl⟩
  simp only [Initialize, hconn, hdriver, hparse]
  simp [ClauseBuilders, registerBuilder]
  split <;> rfl

/-! ## Claim on the time zone of the data-source string -/

/-- C18: for a data-source string `p ++ k ++ "=" ++ v ++ r`, with `k` one of
`time_zone`, `TimeZone`, `p` free of `time_zone=` and `TimeZone=`, `v` free of `'&'`,
`' '` and newline, and `r` empty or beginning with `'&'` or `' '`, the runtime parameter
`timezone` is set to exactly `v`, in the configuration the pool is opened from; for a
data-source string in which neither key followed by `'='` occurs, nothing is set. -/
theorem timeZone_extraction (p k v r : List Byte) (config : ConnConfig)
    (hk : k = ascii "time_zone" ∨ k = ascii "TimeZone")
    (hp1 : occursIn p (ascii "time_zone=") = false)
    (hp2 : occursIn p (ascii "TimeZone=") = false)
    (hv : ∀ c ∈ v, c ≠ ampersand ∧ c ≠ space ∧ c ≠ newline)
    (hr : r = [] ∨ ∃ r1, r = ampersand :: r1 ∨ r = space :: r1) :
    (applyTimeZone (p ++ k ++ [equalsSign] ++ v ++ r) config).RuntimeParams "timezone"
      = some v ∧
    (∀ key, key ≠ "timezone" →
      (applyTimeZone (p ++ k ++ [equalsSign] ++ v ++ r) config).RuntimeParams key
        = config.RuntimeParams key) ∧
    (∀ parseConfig sqlOpen quoting simple returning db,
      parseConfig (p ++ k ++ [equalsSign] ++ v ++ r) = .ok config →
      ∃ pool,
        (Initialize parseConfig sqlOpen
          ⟨"", p ++ k ++ [equalsSign] ++ v ++ r, quoting, simple, returning, none⟩ db).1.ConnPool
          = some (.openDB pool) ∧
        pool.RuntimeParams "timezone" = some v) ∧
    (∀ dsn, occursIn dsn (ascii "time_zone=") = false →
      occursIn dsn (ascii "TimeZone=") = false → applyTimeZone dsn config = config) := by
  have hsub : timeZoneSubmatch (p ++ k ++ [equalsSign] ++ v ++ r) =
      [k ++ [equalsSign] ++ v ++ r.take 1, k, v, r.take 1] := by
    have h := timeZoneSubmatch_at_key k v r hk hv hr p hp1 hp2
    simpa using h
  refine ⟨(applyTimeZone_of_submatch _ config _ _ _ _ hsub).1,
    (applyTimeZone_of_submatch _ config _ _ _ _ hsub).2.1, ?_, fun dsn h1 h2 => ?_⟩
  · intro parseConfig sqlOpen quoting simple returning db hparse
    obtain ⟨pool, hpool, hval⟩ := Initialize_native_pool parseConfig sqlOpen
      ⟨"", p ++ k ++ [equalsSign] ++ v ++ r, quoting, simple, returning, none⟩ db config
      rfl rfl hparse
    refine ⟨pool, hpool, ?_⟩
    rw [hval]
    exact (applyTimeZone_of_submatch _ _ _ _ _ _ hsub).1
  · simp [applyTimeZone, timeZoneSubmatch_of_no_key dsn h1 h2]

/-- C18 for the data-source string `host=db&time_zone=UTC&sslmode=disable`. -/
theorem timeZone_extraction_witness :
    (applyTimeZone (ascii "host=db&time_zone=UTC&sslmode=disable")
        ⟨.otherMode 0, fun _ => none⟩).RuntimeParams "timezone" = some (ascii "UTC") :=
  (timeZone_extraction (ascii "host=db&") (ascii "time_zone") (ascii "UTC")
    (ascii "&sslmode=disable") ⟨.otherMode 0, fun _ => none⟩
    (Or.inl rfl) (by decide) (by decide) (by decide)
    (Or.inr ⟨ascii "sslmode=disable", Or.inl rfl⟩)).1

/-! ## `QuoteTo` on identifiers that are already quoted -/

theorem quoteStep_plain_open_pending (sq : Bool) (o : List Byte) (v : Byte)
    (h1 : v ≠ dquote) (h2 : v ≠ dot) :
    quoteStep ⟨false, sq, 1, 1, o⟩ v = ⟨true, true, 0, 2, o ++ [dquote, v]⟩ := by
  simp [quoteStep, h1, h2, wrapInt8, flushQuotes]

theorem quoteStep_dot_pending (uq sq : Bool) (sd : Int) (o : List Byte) :
    quoteStep ⟨uq, sq, 1, sd, o⟩ dot = ⟨false, sq, 0, 0, o ++ [dquote, dot]⟩ := by
  simp [quoteStep, dot, dquote]

theorem foldl_quoted_segment (sq : Bool) (o : List Byte) (seg : List Byte) (hne : seg ≠ [])
    (hseg : ∀ v ∈ seg, v ≠ dquote ∧ v ≠ dot) :
    ∃ sd1, ([dquote] ++ seg ++ [dquote]).foldl quoteStep ⟨false, sq, 0, 0, o⟩
      = ⟨true, true, 1, sd1, o ++ dquote :: seg⟩ := by
  cases seg with
  | nil => exact absurd rfl hne
  | cons v l =>
    have hv := hseg v (List.mem_cons_self v l)
    have hl1 : ∀ w ∈ l, w ≠ dquote ∧ w ≠ dot := fun w hw => hseg w (List.mem_cons_of_mem v hw)
    obtain ⟨sd1, h⟩ := foldl_plain_inside true l hl1 2 (o ++ [dquote, v])
    refine ⟨wrapInt8 (sd1 + 1), ?_⟩
    have hfirst : quoteStep ⟨false, sq, 0, 0, o⟩ dquote = ⟨false, sq, 1, 1, o⟩ := by
      rw [quoteStep_dquote_first]
      simp [wrapInt8]
    rw [List.append_assoc, List.foldl_append, List.foldl_cons, List.foldl_nil, hfirst,
      List.cons_append, List.foldl_cons, quoteStep_plain_open_pending sq o v hv.1 hv.2,
      List.foldl_append, h, List.foldl_cons, List.foldl_nil, quoteStep_dquote_first]
    simp

theorem foldl_quoted_segments (segs : List (List Byte)) :
    ∀ (seg : List Byte) (sq : Bool) (o : List Byte),
      (∀ s ∈ seg :: segs, s ≠ [] ∧ ∀ v ∈ s, v ≠ dquote ∧ v ≠ dot) →
      ∃ sd1 o1,
        (List.intercalate [dot]
            ((seg :: segs).map (fun s => [dquote] ++ s ++ [dquote]))).foldl quoteStep
            ⟨false, sq, 0, 0, o⟩
          = ⟨true, true, 1, sd1, o1⟩ ∧
        o1 ++ [dquote]
          = o ++ List.intercalate [dot] ((seg :: segs).map (fun s => [dquote] ++ s ++ [dquote])) := by
  induction segs with
  | nil =>
    intro seg sq o h
    have hs := h seg (List.mem_cons_self seg [])
    obtain ⟨sd1, h1⟩ := foldl_quoted_segment sq o seg hs.1 hs.2
    refine ⟨sd1, o ++ dquote :: seg, ?_, ?_⟩
    · simpa [List.intercalate] using h1
    · simp [List.intercalate]
  | cons seg2 segs ih =>
    intro seg sq o h
    have hs := h seg (List.mem_cons_self seg _)
    have hrest : ∀ s ∈ seg2 :: segs, s ≠ [] ∧ ∀ v ∈ s, v ≠ dquote ∧ v ≠ dot :=
      fun s hmem => h s (List.mem_cons_of_mem seg hmem)
    obtain ⟨sd1, h1⟩ := foldl_quoted_segment sq o seg hs.1 hs.2
    obtain ⟨sd2, o2, h2, h3⟩ := ih seg2 true (o ++ dquote :: seg ++ [dquote, dot]) hrest
    refine ⟨sd2, o2, ?_, ?_⟩
    · simp only [List.map_cons]
      rw [intercalate_cons_cons _ ([dquote] ++ seg ++ [dquote]), List.foldl_append,
        List.foldl_append, h1, List.foldl_cons, List.foldl_nil, quoteStep_dot_pending]
      simpa using h2
    · rw [h3]
      simp only [List.map_cons]
      rw [intercalate_cons_cons _ ([dquote] ++ seg ++ [dquote])]
      simp

/-- C19: with the quoting check enabled, for a non-empty list of non-empty segments
containing neither `'"'` nor `'.'`, `QuoteTo` applied to what `QuoteTo` writes for the
segments joined by `'.'` writes that same text again: the quoted form, each segment in
one pair of double quotes, is written back unchanged. -/
theorem QuoteTo_idempotent (writer : List Byte) (segs : List (List Byte))
    (hne : segs ≠ [])
    (hseg : ∀ s ∈ segs, s ≠ [] ∧ ∀ v ∈ s, v ≠ dquote ∧ v ≠ dot) :
    QuoteTo false writer (QuoteTo false [] (List.intercalate [dot] segs))
      = writer ++ QuoteTo false [] (List.intercalate [dot] segs) ∧
    QuoteTo false writer
        (List.intercalate [dot] (segs.map (fun s => [dquote] ++ s ++ [dquote])))
      = writer ++ List.intercalate [dot] (segs.map (fun s => [dquote] ++ s ++ [dquote])) := by
  cases segs with
  | nil => exact absurd rfl hne
  | cons seg segs =>
    obtain ⟨sd1, o1, h1, h2⟩ := foldl_segments segs seg false [] hseg
    have hq : QuoteTo false [] (List.intercalate [dot] (seg :: segs))
        = List.intercalate [dot] ((seg :: segs).map (fun s => [dquote] ++ s ++ [dquote])) := by
      simp only [QuoteTo, quoteInit, Bool.false_eq_true, if_false, h1, quoteFinish]
      simpa using h2
    obtain ⟨sd3, o3, h3, h4⟩ := foldl_quoted_segments segs seg false writer hseg
    have hqq : QuoteTo false writer
        (List.intercalate [dot] ((seg :: segs).map (fun s => [dquote] ++ s ++ [dquote])))
        = writer ++
          List.intercalate [dot] ((seg :: segs).map (fun s => [dquote] ++ s ++ [dquote])) := by
      simp only [QuoteTo, quoteInit, Bool.false_eq_true, if_false, h3, quoteFinish]
      simpa using h4
    exact ⟨by rw [hq, hqq], hqq⟩

/-- C19 for `a.b` and for a single segment of 130 bytes `a`. -/
theorem QuoteTo_idempotent_witness :
    QuoteTo false [] (QuoteTo false [] [97, 46, 98]) = QuoteTo false [] [97, 46, 98] ∧
    QuoteTo false [] ([34] ++ List.replicate 130 97 ++ [34])
      = [34] ++ List.replicate 130 97 ++ [34] := by
  constructor
  · simpa [dot, List.intercalate] using
      (QuoteTo_idempotent [] [[97], [98]] (by decide) (by decide)).1
  · simpa [dot, dquote, List.intercalate] using
      (QuoteTo_idempotent [] [List.replicate 130 97] (by decide) (by simp [dot, dquote])).2

/-! ## Claim on `getSerialDatabaseType` -/

/-- C20: for a field of logical type signed or unsigned integer and every size,
`getSerialDatabaseType` applied to `DataTypeOf` of the field with auto-increment set
returns `DataTypeOf` of the field with auto-increment cleared, and `true`; on every
string other than `smallserial`, `serial`, `bigserial` it returns the empty string and
`false`. -/
theorem getSerialDatabaseType_agrees (toLower : String → String) (f : Field)
    (hty : f.DataType = schema.Int ∨ f.DataType = schema.Uint) :
    getSerialDatabaseType (DataTypeOf toLower { f with AutoIncrement := true })
      = (DataTypeOf toLower { f with AutoIncrement := false }, true) ∧
    (∀ s : String, s ≠ "smallserial" → s ≠ "serial" → s ≠ "bigserial" →
      getSerialDatabaseType s = ("", false)) := by
  have htiers : ∀ size : Int,
      getSerialDatabaseType (serialOfSize size) = (integerOfSize size, true) := by
    intro size
    by_cases h1 : size ≤ 16
    · simp [serialOfSize, integerOfSize, getSerialDatabaseType, h1]
    · by_cases h2 : size ≤ 32
      · simp [serialOfSize, integerOfSize, getSerialDatabaseType, h1, h2]
      · simp [serialOfSize, integerOfSize, getSerialDatabaseType, h1, h2]
  refine ⟨?_, fun s h1 h2 h3 => by simp [getSerialDatabaseType, h1, h2, h3]⟩
  rcases hty with h | h
  · have ha : DataTypeOf toLower { f with AutoIncrement := true } = serialOfSize f.Size := by
      simp [DataTypeOf, h, schema.Int, schema.Bool, schema.Uint]
    have hb : DataTypeOf toLower { f with AutoIncrement := false } = integerOfSize f.Size := by
      simp [DataTypeOf, h, schema.Int, schema.Bool, schema.Uint]
    rw [ha, hb, htiers]
  · have ha : DataTypeOf toLower { f with AutoIncrement := true }
        = serialOfSize (intIncr f.Size) := by
      simp [DataTypeOf, h, schema.Int, schema.Bool, schema.Uint]
    have hb : DataTypeOf toLower { f with AutoIncrement := false }
        = integerOfSize (intIncr f.Size) := by
      simp [DataTypeOf, h, schema.Int, schema.Bool, schema.Uint]
    rw [ha, hb, htiers]

/-- C20 for an unsigned-integer field of size 16 and for the string `bigint`. -/
theorem getSerialDatabaseType_agrees_witness :
    getSerialDatabaseType (DataTypeOf id ⟨schema.Uint, schema.Uint, 16, 0, 0, true⟩)
      = ("integer", true) ∧
    getSerialDatabaseType "bigint" = ("", false) :=
  ⟨(getSerialDatabaseType_agrees id ⟨schema.Uint, schema.Uint, 16, 0, 0, true⟩
      (Or.inr rfl)).1,
   (getSerialDatabaseType_agrees id ⟨schema.Uint, schema.Uint, 16, 0, 0, true⟩
      (Or.inr rfl)).2 "bigint" (by decide) (by decide) (by decide)⟩

end Gaussdb
